import Mathlib

/-!
Verification of the nez-calendar event data engine.

Shallow embedding of the calendar application's core:

* the frontmatter codec (`parseMarkdown` / `serializeEvent`) of
  `CalendarService` (src/src/main.js, the full service with types,
  recurrence and holidays),
* the Swedish-holiday calculator (`calculateEaster`,
  `getSwedishHolidays`),
* the recurrence expander (`expandRecurringEvents`),
* the event store operations (`loadAllEvents` event construction,
  `createEvent`, `updateEvent`, `deleteEvent`),
* the validation operation (`validateEvent`, modelled from the spec —
  it is exercised by the test suite but its implementation is not in
  the sources).

Strings are modelled as `List Char` (`Str`); JavaScript dates are
modelled as proleptic-Gregorian calendar dates (`DateT`) with a
day-ordinal conversion; `Invalid Date` values are modelled with
`Option`, whose `none` compares false on both sides, as NaN does.
JavaScript truthiness on optional strings (`undefined`, `null` and
`""` are falsy) is modelled by `truthyO`.
-/

namespace NezCal


/-- Strings, modelled as character lists so that the codec proofs can
use plain list induction. -/
abbrev Str := List Char

/-- Shorthand turning a Lean string literal into the `Str` model. -/
def str (s : String) : Str := s.toList

/-! ## Basic string operations (JS counterparts) -/

/-- Whitespace recognised by the model of `String.prototype.trim`
(the ASCII whitespace characters actually occurring in the data). -/
def isWS (c : Char) : Bool :=
  c = ' ' || c = '\t' || c = '\n' || c = '\r' || c = '\x0b' || c = '\x0c'

/-- Drop trailing whitespace. -/
def dropTrailWS (l : Str) : Str := ((l.reverse).dropWhile isWS).reverse

/-- Model of `String.prototype.trim`. -/
def trim (l : Str) : Str := dropTrailWS (l.dropWhile isWS)

/-- Decide a prefix: `prefixB p l` decides whether `p` is a prefix of `l`. -/
def prefixB : Str → Str → Bool
  | [], _ => true
  | _ :: _, [] => false
  | a :: as, b :: bs => if a = b then prefixB as bs else false

/-- Join a list of lines with `'\n'`, the model of
`Array.prototype.join('\n')`. -/
def joinNL : List Str → Str
  | [] => []
  | [l] => l
  | l :: ls => l ++ '\n' :: joinNL ls

/-- Split a string at `'\n'` characters, the model of
`String.prototype.split('\n')`. -/
def splitNL : Str → List Str
  | [] => [[]]
  | c :: cs =>
    match splitNL cs with
    | [] => [[c]]
    | l :: ls => if c = '\n' then [] :: l :: ls else (c :: l) :: ls

/-- Split a string at the first occurrence of `pat`, returning the
parts before and after it (`none` when `pat` does not occur).  This is
the behaviour of the non-greedy `([\s\S]*?)` group in the frontmatter
regular expression. -/
def splitFirstOn (pat : Str) : Str → Option (Str × Str)
  | [] => if pat = [] then some ([], []) else none
  | c :: cs =>
    if prefixB pat (c :: cs) then some ([], (c :: cs).drop pat.length)
    else
      match splitFirstOn pat cs with
      | some (a, b) => some (c :: a, b)
      | none => none

/-- Decimal digit character for `d < 10`. -/
def digitChar (d : Nat) : Char :=
  if d = 0 then '0' else if d = 1 then '1' else if d = 2 then '2'
  else if d = 3 then '3' else if d = 4 then '4' else if d = 5 then '5'
  else if d = 6 then '6' else if d = 7 then '7' else if d = 8 then '8'
  else '9'

/-- Numeric value of a digit character (the JS `parseInt` step works
per character as `c - '0'`). -/
def charVal (c : Char) : Nat := c.toNat - 48

/-- Is `c` a decimal digit? (`\d` in the JS regexes). -/
def isDigitC (c : Char) : Bool := 48 ≤ c.toNat && c.toNat ≤ 57

/-- Fuel-driven core of the decimal rendering of a natural number. -/
def natToStrAux : Nat → Nat → Str
  | 0, _ => []
  | fuel + 1, n =>
    if n < 10 then [digitChar n]
    else natToStrAux fuel (n / 10) ++ [digitChar (n % 10)]

/-- Decimal rendering of a natural number, the model of JS number →
string conversion for non-negative integers. -/
def natToStr (n : Nat) : Str := natToStrAux (n + 1) n

/-- Value of a digit string, the model of `parseInt` on a string of
decimal digits. -/
def digitsToNat (l : Str) : Nat := l.foldl (fun a c => 10 * a + charVal c) 0

/-- Model of `String(n).padStart(2, '0')` for the month/day fields. -/
def pad2 (n : Nat) : Str := if n < 10 then '0' :: natToStr n else natToStr n

/-! ## Frontmatter codec (`CalendarService.parseMarkdown` /
`CalendarService.serializeEvent`, src/src/main.js) -/

/-- A parsed frontmatter value: the parser coerces `"true"`/`"false"`
to booleans and digit strings to integers, and keeps everything else
as a string. -/
inductive Val where
  | vStr (s : Str)
  | vBool (b : Bool)
  | vInt (n : Nat)
  deriving DecidableEq, Repr

/-- A frontmatter mapping, in insertion order (later entries win, as
with JS object assignment). -/
abbrev Frontmatter := List (Str × Val)

/-- Last-wins lookup, the JS object-property read. -/
def fmGet (fm : Frontmatter) (k : Str) : Option Val :=
  fm.foldl (fun acc p => if p.1 = k then some p.2 else acc) none

/-- Strip one layer of matching single or double quotes
(`value.slice(1, -1)` guarded by `startsWith`/`endsWith`). -/
def stripQuotes (v : Str) : Str :=
  match v.head?, v.getLast? with
  | some '"', some '"' => (v.drop 1).dropLast
  | some '\'', some '\'' => (v.drop 1).dropLast
  | _, _ => v

/-- Is every character a decimal digit (nonempty)? — `/^\d+$/`. -/
def isDigits (v : Str) : Bool := v ≠ [] && v.all isDigitC

/-- Boolean/number coercion applied to a frontmatter value after
quote stripping. -/
def coerceVal (v : Str) : Val :=
  if v = str "true" then .vBool true
  else if v = str "false" then .vBool false
  else if isDigits v then .vInt (digitsToNat v)
  else .vStr v

/-- Full processing of the text after the first colon of a line. -/
def processValue (v : Str) : Val := coerceVal (stripQuotes v)

/-- Index of the first `':'` in a line (`String.prototype.indexOf`),
`none` when absent. -/
def colonIdx : Str → Option Nat
  | [] => none
  | c :: cs => if c = ':' then some 0 else (colonIdx cs).map (· + 1)

/-- Parse one `key: value` frontmatter line; lines whose first colon
is absent or at position 0 are skipped (`colonIndex > 0`). -/
def parseLine (l : Str) : Option (Str × Val) :=
  match colonIdx l with
  | some i =>
    if i > 0 then
      some (trim (l.take i), processValue (trim (l.drop (i + 1))))
    else none
  | none => none

/-- If the string starts with `'\n'` drop it (the `\n?` in the
frontmatter regular expression). -/
def dropOneNL (l : Str) : Str :=
  match l with
  | '\n' :: rest => rest
  | _ => l

/-- The regex match `^---\n([\s\S]*?)\n---\n?([\s\S]*)$`: requires the
leading delimiter, splits at the first `"\n---"`, and removes one
optional newline from the remainder. -/
def fmSplit (content : Str) : Option (Str × Str) :=
  if prefixB (str "---\n") content then
    (splitFirstOn ('\n' :: str "---") (content.drop 4)).map
      (fun p => (p.1, dropOneNL p.2))
  else none

/-- Model of `CalendarService.parseMarkdown`: returns the frontmatter mapping
and the trimmed body; on no match, empty frontmatter and the whole
content as body. -/
def parseMarkdown (content : Str) : Frontmatter × Str :=
  match fmSplit content with
  | none => ([], content)
  | some (fmStr, bodyRaw) => ((splitNL fmStr).filterMap parseLine, trim bodyRaw)

/-! ## Events and serialization -/

/-- The Event entity (full CalendarService version).  Optional string
fields model JS fields that may be `undefined`/`null`; `""` is falsy
like `undefined` under JS truthiness.  `isRecurrenceInstance` and
`originalId` model the `_isRecurrenceInstance`/`_originalId` markers
put on generated recurrence instances.  The `_filename` bookkeeping
field is not modelled (the file store is abstracted away). -/
structure Event where
  id : Str
  title : Str
  startDate : Str
  endDate : Option Str
  startTime : Option Str
  endTime : Option Str
  allDay : Bool
  color : Str
  type : Str
  recurrence : Option Str
  recurrenceEnd : Option Str
  recurrenceInterval : Option Nat
  description : Str
  isRecurrenceInstance : Bool := false
  originalId : Option Str := none
  deriving DecidableEq, Repr

/-- JS truthiness of an optional string (`undefined`, `null`, `""`
are falsy). -/
def truthyO (o : Option Str) : Bool :=
  match o with
  | some s => s ≠ []
  | none => false

/-- Extract `o` with `[]` for the absent case (used only under a `truthyO`
guard, where the distinction cannot be observed). -/
def oget (o : Option Str) : Str := o.getD []

/-- Wrap a value in double quotes, as the serializer's template
literals do. -/
def quote (v : Str) : Str := '"' :: v ++ ['"']

/-- Model of `title.replace(/"/g, '\\"')`. -/
def escapeQ (s : Str) : Str :=
  s.flatMap (fun c => if c = '"' then ['\\', '"'] else [c])

/-- A `key: value` line as produced by the serializer's templates. -/
def lineOf (k v : Str) : Str := k ++ ':' :: ' ' :: v

/-- Condition `event.endDate && event.endDate !== event.startDate`. -/
def emitEndDate (e : Event) : Bool :=
  truthyO e.endDate && oget e.endDate ≠ e.startDate

/-- Condition `!event.allDay && event.startTime`. -/
def emitStartTime (e : Event) : Bool := !e.allDay && truthyO e.startTime

/-- Condition `event.recurrence && event.recurrence !== 'none'`. -/
def emitRec (e : Event) : Bool :=
  truthyO e.recurrence && oget e.recurrence ≠ str "none"

/-- Condition `event.recurrenceInterval && event.recurrenceInterval > 1`. -/
def emitRecInterval (e : Event) : Bool :=
  match e.recurrenceInterval with
  | some n => n ≠ 0 && n > 1
  | none => false

/-- The frontmatter lines pushed by `serializeEvent`, in push order. -/
def fmLines (e : Event) : List Str :=
  [lineOf (str "id") (quote e.id),
   lineOf (str "title") (quote (escapeQ e.title)),
   lineOf (str "startDate") (quote e.startDate)]
  ++ (if emitEndDate e then [lineOf (str "endDate") (quote (oget e.endDate))] else [])
  ++ [lineOf (str "allDay") (if e.allDay then str "true" else str "false")]
  ++ (if emitStartTime e then
        [lineOf (str "startTime") (quote (oget e.startTime))]
        ++ (if truthyO e.endTime then
              [lineOf (str "endTime") (quote (oget e.endTime))] else [])
      else [])
  ++ [lineOf (str "color") (quote e.color),
      lineOf (str "type") (quote (if e.type = [] then str "personal" else e.type))]
  ++ (if emitRec e then
        [lineOf (str "recurrence") (quote (oget e.recurrence))]
        ++ (if truthyO e.recurrenceEnd then
              [lineOf (str "recurrenceEnd") (quote (oget e.recurrenceEnd))] else [])
        ++ (if emitRecInterval e then
              [lineOf (str "recurrenceInterval")
                (natToStr ((e.recurrenceInterval).getD 0))] else [])
      else [])

/-- Model of `CalendarService.serializeEvent`: delimiters, frontmatter lines, a
blank line, and the description when nonempty, joined with `'\n'`. -/
def serializeEvent (e : Event) : Str :=
  joinNL (str "---" :: fmLines e ++ [str "---", []]
    ++ (if e.description ≠ [] then [e.description] else []))

/-! ## Calendar dates

JS `Date` values (always at midnight, as produced by parsing
`YYYY-MM-DD` or by `new Date(y, m, d)`) are modelled as proleptic
Gregorian dates with a day-ordinal conversion (days since 0000-03-01,
the standard era-based civil-date algorithm).  `Invalid Date` is
modelled as `none` at use sites. -/

structure DateT where
  y : Nat
  m : Nat
  d : Nat
  deriving DecidableEq, Repr

/-- Day ordinal of a civil date (days since 0000-03-01). -/
def daysFromCivil (dt : DateT) : Nat :=
  let y := if dt.m ≤ 2 then dt.y - 1 else dt.y
  let era := y / 400
  let yoe := y % 400
  let mp := (dt.m + 9) % 12
  let doy := (153 * mp + 2) / 5 + dt.d - 1
  let doe := yoe * 365 + yoe / 4 - yoe / 100 + doy
  era * 146097 + doe

/-- Civil date of a day ordinal. -/
def civilFromDays (z : Nat) : DateT :=
  let era := z / 146097
  let doe := z % 146097
  let yoe := (doe - doe / 1460 + doe / 36524 - doe / 146096) / 365
  let y := yoe + era * 400
  let doy := doe - (365 * yoe + yoe / 4 - yoe / 100)
  let mp := (5 * doy + 2) / 153
  let d := doy - (153 * mp + 2) / 5 + 1
  let m := if mp < 10 then mp + 3 else mp - 9
  ⟨if m ≤ 2 then y + 1 else y, m, d⟩

/-- JS `Date.prototype.getDay` (0 = Sunday … 6 = Saturday). -/
def dayOfWeek (dt : DateT) : Nat := (daysFromCivil dt + 3) % 7

/-- Model of `addDays` (SwedishHolidays.js): date plus a signed number of
days, via `setDate`. -/
def addDays (dt : DateT) (n : Int) : DateT :=
  civilFromDays ((daysFromCivil dt : Int) + n).toNat

/-- Model of `formatDate` (both services): `YYYY-MM-DD` with zero-padded month
and day. -/
def formatDate (dt : DateT) : Str :=
  natToStr dt.y ++ '-' :: pad2 dt.m ++ '-' :: pad2 dt.d

/-! ## Swedish holidays (src/unnamed/part_003, SwedishHolidays.js) -/

/-- Model of `calculateEaster`: the Anonymous Gregorian algorithm.  All JS
`Math.floor` divisions are `Nat` divisions and every intermediate
difference is non-negative for the years concerned, so `Nat`
arithmetic coincides with the source. -/
def calculateEaster (year : Nat) : DateT :=
  let a := year % 19
  let b := year / 100
  let c := year % 100
  let d := b / 4
  let e := b % 4
  let f := (b + 8) / 25
  let g := (b - f + 1) / 3
  let h := (19 * a + b - d - g + 15) % 30
  let i := c / 4
  let k := c % 4
  let l := (32 + 2 * e + 2 * i - h - k) % 7
  let m := (a + 11 * h + 22 * l) / 451
  let month := (h + l - 7 * m + 114) / 31
  let day := ((h + l - 7 * m + 114) % 31) + 1
  ⟨year, month, day⟩

/-- Model of `findSaturdayBetween`: linear scan from `startDate` to `endDate`
(inclusive) for the first date whose weekday is Saturday. -/
def findSaturdayBetween (startDate endDate : DateT) : Option DateT :=
  let a := daysFromCivil startDate
  let b := daysFromCivil endDate
  ((List.range (b + 1 - a)).map (fun i => a + i)).find?
    (fun o => (o + 3) % 7 = 6) |>.map civilFromDays

/-- One holiday entry `{date, name, nameSv}`. -/
structure Holiday where
  date : Str
  name : Str
  nameSv : Str
  deriving DecidableEq, Repr

/-- Lexicographic comparison of strings by code point
(`localeCompare` on these ASCII date strings). -/
def strLt : Str → Str → Bool
  | [], [] => false
  | [], _ :: _ => true
  | _ :: _, [] => false
  | a :: as, b :: bs =>
    if a.toNat < b.toNat then true
    else if b.toNat < a.toNat then false
    else strLt as bs

/-- Stable insertion sort by date string (`holidays.sort((a, b) =>
a.date.localeCompare(b.date))` — a stable comparison sort on distinct
keys). -/
def insertByDate (h : Holiday) : List Holiday → List Holiday
  | [] => [h]
  | x :: xs => if strLt x.date h.date then x :: insertByDate h xs else h :: x :: xs

def sortByDate (l : List Holiday) : List Holiday :=
  l.foldr insertByDate []

/-- Model of `getSwedishHolidays` (modelled without the transparent
memoization cache): six fixed holidays, five Easter-derived ones,
Midsummer and All Saints, sorted ascending by date string. -/
def getSwedishHolidays (year : Nat) : List Holiday :=
  let fixed : List Holiday :=
    [⟨natToStr year ++ str "-01-01", str "New Year's Day", str "Nyårsdagen"⟩,
     ⟨natToStr year ++ str "-01-06", str "Epiphany", str "Trettondedag jul"⟩,
     ⟨natToStr year ++ str "-05-01", str "May Day", str "Första maj"⟩,
     ⟨natToStr year ++ str "-06-06", str "National Day of Sweden", str "Sveriges nationaldag"⟩,
     ⟨natToStr year ++ str "-12-25", str "Christmas Day", str "Juldagen"⟩,
     ⟨natToStr year ++ str "-12-26", str "Second Day of Christmas", str "Annandag jul"⟩]
  let easter := calculateEaster year
  let easterBased : List Holiday :=
    [⟨formatDate (addDays easter (-2)), str "Good Friday", str "Långfredagen"⟩,
     ⟨formatDate easter, str "Easter Sunday", str "Påskdagen"⟩,
     ⟨formatDate (addDays easter 1), str "Easter Monday", str "Annandag påsk"⟩,
     ⟨formatDate (addDays easter 39), str "Ascension Day", str "Kristi himmelsfärdsdag"⟩,
     ⟨formatDate (addDays easter 49), str "Whit Sunday", str "Pingstdagen"⟩]
  let midsummer :=
    match findSaturdayBetween ⟨year, 6, 20⟩ ⟨year, 6, 26⟩ with
    | some d => [(⟨formatDate d, str "Midsummer Day", str "Midsommardagen"⟩ : Holiday)]
    | none => []
  let allSaints :=
    match findSaturdayBetween ⟨year, 10, 31⟩ ⟨year, 11, 6⟩ with
    | some d => [(⟨formatDate d, str "All Saints' Day", str "Alla helgons dag"⟩ : Holiday)]
    | none => []
  sortByDate (fixed ++ easterBased ++ midsummer ++ allSaints)

/-! ## Date-string parsing

`new Date("YYYY-MM-DD")` for canonical date strings; any other string
is treated as producing `Invalid Date` (`none`).  All date strings
this system produces and queries with are canonical. -/

def isLeap (y : Nat) : Bool := (y % 4 = 0 && y % 100 ≠ 0) || y % 400 = 0

def daysInMonth (y m : Nat) : Nat :=
  if m = 2 then (if isLeap y then 29 else 28)
  else if m = 4 || m = 6 || m = 9 || m = 11 then 30
  else 31

/-- Split a ten-character `YYYY-MM-DD` shape into numeric fields. -/
def parseYMD (s : Str) : Option (Nat × Nat × Nat) :=
  match s with
  | [y1, y2, y3, y4, '-', m1, m2, '-', d1, d2] =>
    if [y1, y2, y3, y4, m1, m2, d1, d2].all isDigitC then
      some (digitsToNat [y1, y2, y3, y4], digitsToNat [m1, m2],
        digitsToNat [d1, d2])
    else none
  | _ => none

/-- A real calendar date in `YYYY-MM-DD` form. -/
def validDateB (s : Str) : Bool :=
  match parseYMD s with
  | some (y, m, d) => 1 ≤ m && m ≤ 12 && 1 ≤ d && d ≤ daysInMonth y m
  | none => false

def parseDateStr (s : Str) : Option DateT :=
  match parseYMD s with
  | some (y, m, d) =>
    if 1 ≤ m && m ≤ 12 && 1 ≤ d && d ≤ daysInMonth y m then some ⟨y, m, d⟩
    else none
  | none => none

/-- Day ordinal of a date string (`none` models `Invalid Date`). -/
def parseDateO (s : Str) : Option Nat := (parseDateStr s).map daysFromCivil

/-! ## Recurrence expander (`CalendarService.expandRecurringEvents`) -/

/-- Condition `!event.recurrence || event.recurrence === 'none'`. -/
def nonRecurring (e : Event) : Bool :=
  !truthyO e.recurrence || oget e.recurrence = str "none"

/-- Compare `a <= b` on dates where `b` may be `Invalid` (NaN comparisons are
false). -/
def leO (a : Nat) (b : Option Nat) : Bool :=
  match b with
  | some b' => a ≤ b'
  | none => false

/-- Compare `a >= b` with an `Invalid` right operand (and a possibly negative
left operand from duration arithmetic). -/
def geO (a : Int) (b : Option Nat) : Bool :=
  match b with
  | some b' => (b' : Int) ≤ a
  | none => false

/-- Model of `current.setMonth(current.getMonth() + k)`: month index
arithmetic with JS day-overflow normalization (days past the end of
the target month roll into the following month). -/
def addMonthsJS (dt : DateT) (k : Nat) : DateT :=
  let mi := (dt.m - 1) + k
  civilFromDays (daysFromCivil ⟨dt.y + mi / 12, mi % 12 + 1, 1⟩ + (dt.d - 1))

/-- Model of `current.setFullYear(current.getFullYear() + k)` with the same
normalization (Feb 29 → Mar 1 on non-leap targets). -/
def addYearsJS (dt : DateT) (k : Nat) : DateT :=
  civilFromDays (daysFromCivil ⟨dt.y + k, dt.m, 1⟩ + (dt.d - 1))

def knownRecurrence (r : Str) : Bool :=
  r = str "daily" || r = str "weekly" || r = str "monthly" || r = str "yearly"

/-- The `switch (event.recurrence)` cursor advance. -/
def advanceDate (r : Str) (interval : Nat) (cur : DateT) : DateT :=
  if r = str "daily" then civilFromDays (daysFromCivil cur + interval)
  else if r = str "weekly" then civilFromDays (daysFromCivil cur + 7 * interval)
  else if r = str "monthly" then addMonthsJS cur interval
  else addYearsJS cur interval

/-- The generated instance object: composite id, shifted dates, and
the derived-instance markers. -/
def mkInstance (e : Event) (cur : DateT) (dur? : Option Int) : Event :=
  { e with
    id := e.id ++ '_' :: formatDate cur,
    startDate := formatDate cur,
    endDate := some (match dur? with
      | some dur =>
        formatDate (civilFromDays ((daysFromCivil cur : Int) + dur).toNat)
      | none => str "NaN-NaN-NaN"),
    isRecurrenceInstance := true,
    originalId := some e.id }

/-- Condition `current >= start || new Date(current.getTime() + duration) >= start`. -/
def pushCond (cur : DateT) (start? : Option Nat) (dur? : Option Int) : Bool :=
  geO (daysFromCivil cur) start? ||
    (match dur? with
     | some dur => geO ((daysFromCivil cur : Int) + dur) start?
     | none => false)

/-- The generation loop.  `count` is `instanceCount` from the source
and the guard `count < 365` is the `maxInstances` safety cap; `fuel`
is a structural-recursion bound kept equal to `365 - count`, so it
never cuts the loop short.  An unrecognized recurrence value models
the `default:` branch, which forces the loop to exit after the
current iteration. -/
def expandLoop (e : Event) (start? end? ceil? : Option Nat)
    (dur? : Option Int) (interval : Nat) :
    DateT → Nat → Nat → List Event
  | _, _, 0 => []
  | cur, count, fuel + 1 =>
    if leO (daysFromCivil cur) end? && leO (daysFromCivil cur) ceil? &&
        count < 365 then
      (if pushCond cur start? dur? then [mkInstance e cur dur?] else [])
      ++ (if knownRecurrence (oget e.recurrence) then
            expandLoop e start? end? ceil? dur? interval
              (advanceDate (oget e.recurrence) interval cur) (count + 1) fuel
          else [])
    else []

/-- Ceiling `event.recurrenceEnd ? new Date(event.recurrenceEnd) : end`. -/
def recurrenceCeiling (e : Event) (end? : Option Nat) : Option Nat :=
  if truthyO e.recurrenceEnd then parseDateO (oget e.recurrenceEnd) else end?

/-- The per-event body of `expandRecurringEvents`: a non-recurring
event passes through; a recurring one generates bounded instances. -/
def expandOne (startS endS : Str) (e : Event) : List Event :=
  if nonRecurring e then [e]
  else
    match parseDateStr e.startDate with
    | none => []
    | some es =>
      let end? := parseDateO endS
      let eventEnd? : Option Nat :=
        if truthyO e.endDate then parseDateO (oget e.endDate)
        else some (daysFromCivil es)
      let dur? : Option Int :=
        eventEnd?.map (fun ee => (ee : Int) - daysFromCivil es)
      let interval :=
        match e.recurrenceInterval with
        | some n => if n ≠ 0 then n else 1
        | none => 1
      expandLoop e (parseDateO startS) end? (recurrenceCeiling e end?)
        dur? interval es 0 365

/-- Model of `CalendarService.expandRecurringEvents`: each event contributes
its pass-through copy or its generated instances, in order. -/
def expandRecurringEvents (events : List Event) (startS endS : Str) :
    List Event :=
  events.foldr (fun e acc => expandOne startS endS e ++ acc) []

/-- The daily fixture from the test suite (absent fields are
`undefined`). -/
def evDaily : Event :=
  { id := str "daily-1", title := str "Daily Standup",
    startDate := str "2026-01-01", endDate := some (str "2026-01-01"),
    startTime := none, endTime := none, allDay := true, color := [],
    type := str "personal", recurrence := some (str "daily"),
    recurrenceEnd := some (str "2026-01-05"), recurrenceInterval := none,
    description := [] }

/-- The weekly fixture. -/
def evWeekly : Event :=
  { evDaily with
    id := str "weekly-1"
    title := str "Weekly Review"
    startDate := str "2026-01-05"
    endDate := some (str "2026-01-05")
    recurrence := some (str "weekly")
    recurrenceEnd := some (str "2026-01-26") }

/-- The interval-2 weekly fixture. -/
def evBiweekly : Event :=
  { evWeekly with
    id := str "biweekly-1"
    title := str "Biweekly"
    recurrenceEnd := some (str "2026-02-28")
    recurrenceInterval := some 2 }

/-- The non-recurring fixture. -/
def evSingle : Event :=
  { id := str "single-1", title := str "One-time Event",
    startDate := str "2026-01-15", endDate := some (str "2026-01-15"),
    startTime := none, endTime := none, allDay := true, color := [],
    type := str "personal", recurrence := some (str "none"),
    recurrenceEnd := none, recurrenceInterval := none, description := [] }

/-- Witness for C5: a daily event with `recurrenceInterval = 0` and
no `recurrenceEnd`. -/
def evZeroInterval : Event :=
  { evDaily with
    id := str "zero-1"
    recurrenceEnd := none
    recurrenceInterval := some 0 }

/-! ## Event input data and validation -/

/-- A partial event record: creation input, update patch, or
validation candidate.  `none` models an absent (`undefined`) key. -/
structure EventData where
  title : Option Str := none
  startDate : Option Str := none
  endDate : Option Str := none
  startTime : Option Str := none
  endTime : Option Str := none
  allDay : Option Bool := none
  color : Option Str := none
  type : Option Str := none
  recurrence : Option Str := none
  recurrenceEnd : Option Str := none
  recurrenceInterval : Option Nat := none
  description : Option Str := none
  deriving DecidableEq, Repr

/-- A clock time in `HH:MM` shape with zero-padded fields. -/
def validTimeB (s : Str) : Bool :=
  match s with
  | [h1, h2, ':', m1, m2] => [h1, h2, m1, m2].all isDigitC
  | _ => false

/-- Modelled from the spec: `validateEvent` is exercised by
CalendarService.test.js but its implementation is not among the
sources.  Per §4.5, the checks run in order — title non-empty after
trim; `startDate` a real `YYYY-MM-DD` date; if `endDate` is present,
the same format check plus `endDate >= startDate` (compared only when
both dates are well-formed); if not all-day, each present time field
must match `HH:MM` — and every applicable check runs even after an
earlier failure, the result being the full ordered error list. -/
def validateEvent (c : EventData) : List Str :=
  (if trim (c.title.getD []) = [] then [str "Title is required"] else [])
  ++ (if !validDateB (c.startDate.getD []) then
        [str "Invalid start date format (expected YYYY-MM-DD)"] else [])
  ++ (if truthyO c.endDate then
        (if !validDateB (oget c.endDate) then
          [str "Invalid end date format (expected YYYY-MM-DD)"]
        else if validDateB (c.startDate.getD []) &&
            strLt (oget c.endDate) (c.startDate.getD []) then
          [str "End date must be on or after start date"]
        else [])
      else [])
  ++ (if !(c.allDay.getD false) then
        (if truthyO c.startTime && !validTimeB (oget c.startTime) then
          [str "Invalid start time format (expected HH:MM)"] else [])
        ++ (if truthyO c.endTime && !validTimeB (oget c.endTime) then
          [str "Invalid end time format (expected HH:MM)"] else [])
      else [])

/-- A candidate whose start and end dates are both malformed. -/
def bothMalformed : EventData :=
  { title := some (str "Test")
    startDate := some (str "01-15-2026")
    endDate := some (str "invalid") }

/-- A candidate with well-formed dates in the wrong order, otherwise
valid. -/
def endBeforeStart : EventData :=
  { title := some (str "Test")
    startDate := some (str "2026-01-15")
    endDate := some (str "2026-01-10")
    allDay := some true }

/-! ## Event store (`CalendarService.loadAllEvents` / `createEvent` /
`updateEvent` / `deleteEvent`) -/

/-- String view of a frontmatter value (non-string frontmatter values
reach `Event` string fields only through templates/truthiness, where
this coercion is what JS observes). -/
def valS : Val → Str
  | .vStr s => s
  | .vBool b => if b then str "true" else str "false"
  | .vInt n => natToStr n

/-- JS truthiness of a frontmatter value. -/
def truthyV : Val → Bool
  | .vStr s => s ≠ []
  | .vBool b => b
  | .vInt n => n ≠ 0

/-- Truthiness of an optional frontmatter value. -/
def truthyFm (o : Option Val) : Bool :=
  match o with
  | some v => truthyV v
  | none => false

/-- Read `frontmatter.k || default` as a string. -/
def dfltS (fm : Frontmatter) (k : Str) (d : Str) : Str :=
  match fmGet fm k with
  | some v => if truthyV v then valS v else d
  | none => d

/-- Read `frontmatter.k || null` as an optional string. -/
def optS (fm : Frontmatter) (k : Str) : Option Str :=
  match fmGet fm k with
  | some v => if truthyV v then some (valS v) else none
  | none => none

/-- The event object built per file by `loadAllEvents` (lines
487–506): field defaults, the `allDay` derivation
`frontmatter.allDay !== false && !frontmatter.startTime`, and the
discard of entries whose `startDate` is falsy.  `freshId` stands for
the random `generateId()` result. -/
def eventFromFm (freshId : Str) (fm : Frontmatter) (body : Str) :
    Option Event :=
  match fmGet fm (str "startDate") with
  | some sdv =>
    if truthyV sdv then
      some {
        id := dfltS fm (str "id") freshId
        title := dfltS fm (str "title") (str "Untitled")
        startDate := valS sdv
        endDate := some (dfltS fm (str "endDate") (valS sdv))
        startTime := optS fm (str "startTime")
        endTime := optS fm (str "endTime")
        allDay := (match fmGet fm (str "allDay") with
          | some (.vBool false) => false
          | _ => true) && !truthyFm (fmGet fm (str "startTime"))
        color := dfltS fm (str "color") (str "#8b5cf6")
        type := dfltS fm (str "type") (str "personal")
        recurrence := some (dfltS fm (str "recurrence") (str "none"))
        recurrenceEnd := optS fm (str "recurrenceEnd")
        recurrenceInterval := some (match fmGet fm (str "recurrenceInterval") with
          | some (.vInt n) => if n ≠ 0 then n else 1
          | some v => if truthyV v then 1 else 1
          | none => 1)
        description := body }
    else none
  | none => none

/-- Parse one file's content and build its event, as the `loadAllEvents`
loop body does. -/
def loadEventFromContent (freshId content : Str) : Option Event :=
  eventFromFm freshId (parseMarkdown content).1 (parseMarkdown content).2

/-- The `EVENT_TYPES` color table. -/
def eventTypesColor (t : Str) : Option Str :=
  if t = str "personal" then some (str "#8b5cf6")
  else if t = str "work" then some (str "#3b82f6")
  else if t = str "birthday" then some (str "#ec4899")
  else if t = str "holiday" then some (str "#22c55e")
  else if t = str "other" then some (str "#6b7280")
  else none

/-- Model of `createEvent` (lines 660–675): field defaults as in the source;
`none` models the `TypeError` thrown by
`EVENT_TYPES[unknownType].color` when no explicit color is given. -/
def createEvent (freshId : Str) (d : EventData) : Option Event :=
  let ty := if truthyO d.type then oget d.type else str "personal"
  let color? := if truthyO d.color then some (oget d.color)
                else eventTypesColor ty
  match color? with
  | none => none
  | some col =>
    some {
      id := freshId
      title := if truthyO d.title then oget d.title else str "Untitled"
      startDate := d.startDate.getD []
      endDate := if truthyO d.endDate then d.endDate else d.startDate
      startTime := if d.allDay.getD false then none
                   else if truthyO d.startTime then d.startTime else none
      endTime := if d.allDay.getD false then none
                 else if truthyO d.endTime then d.endTime else none
      allDay := match d.allDay with
        | some false => false
        | _ => true
      color := col
      type := ty
      recurrence := some (if truthyO d.recurrence then oget d.recurrence
        else str "none")
      recurrenceEnd := if truthyO d.recurrenceEnd then d.recurrenceEnd
        else none
      recurrenceInterval := some (match d.recurrenceInterval with
        | some n => if n ≠ 0 then n else 1
        | none => 1)
      description := if truthyO d.description then oget d.description else [] }

/-- The in-memory `this.events` map, keyed by id. -/
abbrev EventMap := Str → Option Event

/-- Resolution `id.includes('_') ? id.split('_')[0] : id` — the composite
recurrence-instance id resolution used by update and delete. -/
def splitId (id : Str) : Str :=
  if '_' ∈ id then id.takeWhile (· != '_') else id

/-- Merge `{...existing, ...eventData, id: originalId}` — the spread merge,
patch fields winning where present. -/
def mergeRaw (ex : Event) (p : EventData) (oid : Str) : Event :=
  {
    id := oid
    title := p.title.getD ex.title
    startDate := p.startDate.getD ex.startDate
    endDate := match p.endDate with | some d => some d | none => ex.endDate
    startTime := match p.startTime with | some t => some t | none => ex.startTime
    endTime := match p.endTime with | some t => some t | none => ex.endTime
    allDay := p.allDay.getD ex.allDay
    color := p.color.getD ex.color
    type := p.type.getD ex.type
    recurrence := match p.recurrence with | some r => some r | none => ex.recurrence
    recurrenceEnd := match p.recurrenceEnd with
      | some r => some r
      | none => ex.recurrenceEnd
    recurrenceInterval := match p.recurrenceInterval with
      | some n => some n
      | none => ex.recurrenceInterval
    description := p.description.getD ex.description
    isRecurrenceInstance := ex.isRecurrenceInstance
    originalId := ex.originalId }

/-- The merge followed by the all-day/time-field consistency
enforcement (`if (event.allDay) { event.startTime = null; ... }`). -/
def mergePatch (ex : Event) (p : EventData) (oid : Str) : Event :=
  let merged := mergeRaw ex p oid
  if merged.allDay then { merged with startTime := none, endTime := none }
  else merged

/-- Model of `updateEvent` (lines 692–729): resolve the composite id, fail
with NotFound (`none`) when the base event is absent, otherwise merge
the patch and re-store under the original id.  File-store writes are
abstracted away. -/
def updateEvent (m : EventMap) (id : Str) (p : EventData) :
    Option (Event × EventMap) :=
  let originalId := splitId id
  match m originalId with
  | none => none
  | some existing =>
    let ev := mergePatch existing p originalId
    some (ev, fun k => if k = ev.id then some ev else m k)

/-- Model of `deleteEvent` (lines 734–750): resolve the composite id, return
`false` leaving the map unchanged when absent, otherwise remove the
base entry and return `true`. -/
def deleteEvent (m : EventMap) (id : Str) : Bool × EventMap :=
  let originalId := splitId id
  match m originalId with
  | none => (false, m)
  | some _ => (true, fun k => if k = originalId then none else m k)

/-- File content with an `endTime` but no `startTime` and no explicit
`allDay`. -/
def c7Content : Str :=
  str "---\nstartDate: \"2026-01-01\"\nendTime: \"10:00\"\n---\nNote"

/-- Creation input with `allDay` undefined and a `startTime`. -/
def c7Create : EventData :=
  { title := some (str "T")
    startDate := some (str "2026-01-01")
    startTime := some (str "09:00") }

/-- Base event stored under the underscore-free id `"base-1"`. -/
def evBase : Event :=
  { evSingle with id := str "base-1" }

/-- A one-event store for the C8 witness. -/
def c8Map : EventMap := fun k => if k = str "base-1" then some evBase else none

/-- Patch used in the C8 witness. -/
def c8Patch : EventData := { title := some (str "Renamed") }

/-- Stored event whose own id is the underscore prefix `"a"`. -/
def evA : Event := { evSingle with id := str "a" }

/-- Stored event whose own id `"a_b"` contains an underscore. -/
def evAB : Event := { evSingle with id := str "a_b" }

/-- A store containing both `"a"` and `"a_b"`. -/
def c10Map : EventMap := fun k =>
  if k = str "a" then some evA
  else if k = str "a_b" then some evAB else none

/-! ## Claim C6: which frontmatter lines the serializer emits -/

/-- Does some line of `ls` start with `k ++ ":"` (a `k` field line)? -/
def hasKey (k : Str) (ls : List Str) : Bool :=
  ls.any (fun l => prefixB (k ++ [':']) l)

/-- Event with no `endDate`, `allDay = false` and no times — the
shape the store itself produces from frontmatter with an explicit
`allDay: false` and no time fields. -/
def e6 : Event :=
  { id := str "c6", title := str "T", startDate := str "2026-01-15",
    endDate := none, startTime := none, endTime := none, allDay := false,
    color := str "#8b5cf6", type := str "personal",
    recurrence := some (str "none"), recurrenceEnd := none,
    recurrenceInterval := some 1, description := [] }

/-- The field-value constraints under which one frontmatter value
survives the codec unchanged: no embedded double quote (the
serializer escapes them but the parser never unescapes), no newline
(values are line-based), and not a string the parser coerces to a
boolean or an integer. -/
def goodStr (s : Str) : Prop := '"' ∉ s ∧ '\n' ∉ s ∧ coerceVal s = .vStr s

instance goodStr_decidable (s : Str) : Decidable (goodStr s) :=
  inferInstanceAs (Decidable ('"' ∉ s ∧ '\n' ∉ s ∧ coerceVal s = .vStr s))

/-- Require `goodStr` for each present value of an optional field. -/
def goodOpt (o : Option Str) : Prop := ∀ s, o = some s → goodStr s

/-- The frontmatter mapping the parser recovers from the serialized
lines (keys in emission order, values as the codec coerces them). -/
def parsedPairs (e : Event) : Frontmatter :=
  [(str "id", Val.vStr e.id), (str "title", Val.vStr e.title),
   (str "startDate", Val.vStr e.startDate)]
  ++ (if emitEndDate e = true then
        [(str "endDate", Val.vStr (oget e.endDate))] else [])
  ++ [(str "allDay", Val.vBool e.allDay)]
  ++ (if emitStartTime e = true then
        (str "startTime", Val.vStr (oget e.startTime)) ::
        (if truthyO e.endTime = true then
          [(str "endTime", Val.vStr (oget e.endTime))] else [])
      else [])
  ++ [(str "color", Val.vStr e.color), (str "type", Val.vStr e.type)]
  ++ (if emitRec e = true then
        (str "recurrence", Val.vStr (oget e.recurrence)) ::
        ((if truthyO e.recurrenceEnd = true then
            [(str "recurrenceEnd", Val.vStr (oget e.recurrenceEnd))] else [])
         ++ (if emitRecInterval e = true then
            [(str "recurrenceInterval",
              Val.vInt (e.recurrenceInterval.getD 0))] else []))
      else [])

/-- Valid event whose title contains a double quote. -/
def exQuote : Event :=
  { id := str "ev1", title := ['a', '"', 'b'],
    startDate := str "2026-01-15", endDate := some (str "2026-01-15"),
    startTime := none, endTime := none, allDay := true,
    color := str "#8b5cf6", type := str "personal",
    recurrence := some (str "none"), recurrenceEnd := none,
    recurrenceInterval := some 1, description := str "Desc" }

/-- A fully-featured event with codec-safe field values, used to
instantiate the round-trip theorem. -/
def exRT : Event :=
  { id := str "test-123", title := str "Team Meeting",
    startDate := str "2026-01-15", endDate := some (str "2026-01-17"),
    startTime := some (str "09:00"), endTime := some (str "10:00"),
    allDay := false, color := str "#3b82f6", type := str "work",
    recurrence := some (str "weekly"),
    recurrenceEnd := some (str "2026-03-01"),
    recurrenceInterval := some 2, description := str "Quarterly notes" }

/-! ## Theorems -/

/-! ## Lemmas about the basic string operations -/

theorem prefixB_self_append (p r : Str) : prefixB p (p ++ r) = true := by
  induction p with
  | nil => rfl
  | cons a as ih => simpa [prefixB] using ih

theorem joinNL_cons (l : Str) (ls : List Str) (h : ls ≠ []) :
    joinNL (l :: ls) = l ++ '\n' :: joinNL ls := by
  cases ls with
  | nil => exact absurd rfl h
  | cons x xs => rfl

theorem joinNL_append (A B : List Str) (hA : A ≠ []) (hB : B ≠ []) :
    joinNL (A ++ B) = joinNL A ++ '\n' :: joinNL B := by
  induction A with
  | nil => exact absurd rfl hA
  | cons a as ih =>
    cases as with
    | nil =>
      cases B with
      | nil => exact absurd rfl hB
      | cons b bs => simp [joinNL]
    | cons a' as' =>
      have h1 : (a' :: as') ++ B ≠ [] := by simp
      rw [List.cons_append, joinNL_cons a _ h1, joinNL_cons a _ (by simp),
        ih (by simp)]
      simp

theorem splitNL_ne_nil (l : Str) : splitNL l ≠ [] := by
  induction l with
  | nil => simp [splitNL]
  | cons c cs ih =>
    simp only [splitNL]
    cases h : splitNL cs with
    | nil => simp
    | cons x xs =>
      by_cases hc : c = '\n' <;> simp [hc]

theorem splitNL_no_nl (l : Str) (h : '\n' ∉ l) : splitNL l = [l] := by
  induction l with
  | nil => rfl
  | cons c cs ih =>
    simp only [splitNL]
    have hc : c ≠ '\n' := by
      intro hc; exact h (hc ▸ List.mem_cons_self c cs)
    have hcs : '\n' ∉ cs := fun hm => h (List.mem_cons_of_mem c hm)
    rw [ih hcs]
    simp [hc]

theorem splitNL_append_nl (l rest : Str) (h : '\n' ∉ l) :
    splitNL (l ++ '\n' :: rest) = l :: splitNL rest := by
  induction l with
  | nil =>
    simp only [List.nil_append, splitNL]
    cases hr : splitNL rest with
    | nil => exact absurd hr (splitNL_ne_nil rest)
    | cons x xs => simp
  | cons c cs ih =>
    have hc : c ≠ '\n' := by
      intro hc; exact h (hc ▸ List.mem_cons_self c cs)
    have hcs : '\n' ∉ cs := fun hm => h (List.mem_cons_of_mem c hm)
    simp only [List.cons_append, splitNL, List.append_eq]
    rw [ih hcs]
    simp [hc]

theorem splitNL_joinNL (L : List Str) (hL : L ≠ [])
    (h : ∀ l ∈ L, '\n' ∉ l) : splitNL (joinNL L) = L := by
  induction L with
  | nil => exact absurd rfl hL
  | cons l ls ih =>
    cases ls with
    | nil => exact splitNL_no_nl l (h l (List.mem_cons_self l []))
    | cons l' ls' =>
      rw [joinNL_cons l _ (by simp),
        splitNL_append_nl _ _ (h l (List.mem_cons_self _ _)),
        ih (by simp) (fun x hx => h x (List.mem_cons_of_mem l hx))]

/-- Scanning for a pattern that begins with `'\n'` skips over a
newline-free chunk. -/
theorem splitFirstOn_skip (q l tail : Str) (h : '\n' ∉ l) :
    splitFirstOn ('\n' :: q) (l ++ tail) =
      (splitFirstOn ('\n' :: q) tail).map (fun p => (l ++ p.1, p.2)) := by
  induction l with
  | nil =>
    simp only [List.nil_append]
    cases hr : splitFirstOn ('\n' :: q) tail with
    | none => simp
    | some p => cases p; simp
  | cons c cs ih =>
    have hc : c ≠ '\n' := by
      intro hc; exact h (hc ▸ List.mem_cons_self c cs)
    have hcs : '\n' ∉ cs := fun hm => h (List.mem_cons_of_mem c hm)
    have ih' := ih hcs
    cases hr : splitFirstOn ('\n' :: q) tail with
    | none =>
      rw [hr] at ih'
      simp only [List.cons_append, splitFirstOn, prefixB, if_neg (Ne.symm hc)]
      simp only [Option.map_none'] at ih'
      simp [ih']
    | some p =>
      cases p with
      | mk x y =>
        rw [hr] at ih'
        simp only [List.cons_append, splitFirstOn, prefixB, if_neg (Ne.symm hc)]
        simp only [Option.map_some'] at ih'
        simp [ih']

theorem splitFirstOn_at_pat (pat b : Str) (hp : pat ≠ []) :
    splitFirstOn pat (pat ++ b) = some ([], b) := by
  cases pat with
  | nil => exact absurd rfl hp
  | cons p ps =>
    have hshape : (p :: ps) ++ b = p :: (ps ++ b) := rfl
    rw [hshape]
    simp only [splitFirstOn]
    rw [← hshape, prefixB_self_append]
    simp [List.drop_left]

/-- Splitting the serialized frontmatter block: the joined header
lines contain no `"\n---"`, so the first occurrence of the pattern is
the closing delimiter.  Header lines must be newline-free, non-empty
and must not start with `'-'`. -/
theorem splitFirstOn_joinNL (H : List Str) (b : Str) (hne : H ≠ [])
    (hl : ∀ l ∈ H, '\n' ∉ l ∧ ∃ c cs, l = c :: cs ∧ c ≠ '-') :
    splitFirstOn ('\n' :: str "---") (joinNL H ++ '\n' :: str "---" ++ b) =
      some (joinNL H, b) := by
  induction H with
  | nil => exact absurd rfl hne
  | cons l ls ih =>
    cases ls with
    | nil =>
      have h1 := (hl l (List.mem_cons_self l [])).1
      have hshape : joinNL [l] ++ '\n' :: str "---" ++ b =
          l ++ ('\n' :: str "---" ++ b) := by simp [joinNL]
      rw [hshape, splitFirstOn_skip _ _ _ h1,
        splitFirstOn_at_pat ('\n' :: str "---") b (by simp)]
      simp [joinNL]
    | cons l' ls' =>
      have h1 := (hl l (List.mem_cons_self _ _)).1
      obtain ⟨c, cs, hlc, hcdash⟩ := (hl l' (by simp)).2
      have hJ2 : ∃ t, joinNL (l' :: ls') = c :: t := by
        cases ls' with
        | nil => exact ⟨cs, by simp [joinNL, hlc]⟩
        | cons a as =>
          exact ⟨cs ++ '\n' :: joinNL (a :: as), by
            rw [joinNL_cons _ _ (by simp), hlc]; simp⟩
      obtain ⟨t, ht⟩ := hJ2
      have hshape : joinNL (l :: l' :: ls') ++ '\n' :: str "---" ++ b =
          l ++ ('\n' :: (joinNL (l' :: ls') ++ '\n' :: str "---" ++ b)) := by
        rw [joinNL_cons l _ (by simp)]; simp
      rw [hshape, splitFirstOn_skip _ _ _ h1]
      have hstep : splitFirstOn ('\n' :: str "---")
          ('\n' :: (joinNL (l' :: ls') ++ '\n' :: str "---" ++ b)) =
          (splitFirstOn ('\n' :: str "---")
            (joinNL (l' :: ls') ++ '\n' :: str "---" ++ b)).map
            (fun p => ('\n' :: p.1, p.2)) := by
        simp only [splitFirstOn]
        have hfail : prefixB ('\n' :: str "---")
            ('\n' :: (joinNL (l' :: ls') ++ '\n' :: str "---" ++ b)) =
            false := by
          simp only [prefixB, if_pos rfl]
          rw [ht]
          show prefixB ('-' :: str "--") (c :: (t ++ '\n' :: str "---" ++ b)) = false
          simp [prefixB, Ne.symm hcdash]
        rw [hfail]
        simp only [Bool.false_eq_true, if_false]
        cases hr : splitFirstOn ('\n' :: str "---")
            (joinNL (l' :: ls') ++ '\n' :: str "---" ++ b) with
        | none => simp
        | some p => cases p; simp
      rw [hstep, ih (by simp) (fun x hx => hl x (List.mem_cons_of_mem l hx))]
      rw [joinNL_cons l _ (by simp)]
      simp

theorem trim_nil : trim [] = [] := rfl

theorem trim_cons_ws (c : Char) (l : Str) (h : isWS c = true) :
    trim (c :: l) = trim l := by
  simp [trim, List.dropWhile, h]

theorem dropTrailWS_eq_self (l : Str) (h : ∀ c, l.getLast? = some c → isWS c = false) :
    dropTrailWS l = l := by
  unfold dropTrailWS
  cases hl : l.reverse with
  | nil =>
    have : l = [] := by simpa using congrArg List.reverse hl
    simp [this]
  | cons c cs =>
    have hlast : l.getLast? = some c := by
      rw [← List.reverse_reverse l, hl]
      simp [List.getLast?_reverse]
    rw [List.dropWhile_cons, h c hlast]
    simp only [Bool.false_eq_true, if_false]
    rw [← hl, List.reverse_reverse]

theorem trim_eq_self (l : Str)
    (hh : ∀ c, l.head? = some c → isWS c = false)
    (hl : ∀ c, l.getLast? = some c → isWS c = false) :
    trim l = l := by
  unfold trim
  cases l with
  | nil => rfl
  | cons c cs =>
    rw [List.dropWhile_cons, hh c rfl]
    simp only [Bool.false_eq_true, if_false]
    exact dropTrailWS_eq_self _ hl

theorem digitChar_spec (d : Nat) (h : d < 10) :
    charVal (digitChar d) = d ∧ isDigitC (digitChar d) = true := by
  interval_cases d <;> exact ⟨rfl, rfl⟩

theorem digitsToNat_append (a : Str) (c : Char) :
    digitsToNat (a ++ [c]) = 10 * digitsToNat a + charVal c := by
  simp [digitsToNat, List.foldl_append]

theorem natToStrAux_spec (fuel : Nat) : ∀ n, n < fuel →
    digitsToNat (natToStrAux fuel n) = n ∧ natToStrAux fuel n ≠ [] ∧
      ∀ c ∈ natToStrAux fuel n, ∃ d, d < 10 ∧ c = digitChar d := by
  induction fuel with
  | zero => intro n h; omega
  | succ fuel ih =>
    intro n h
    by_cases h10 : n < 10
    · refine ⟨?_, by simp [natToStrAux, h10], ?_⟩
      · simp [natToStrAux, h10, digitsToNat, (digitChar_spec n h10).1]
      · intro c hc
        simp [natToStrAux, h10] at hc
        exact ⟨n, h10, hc⟩
    · have hrec : n / 10 < fuel := by omega
      obtain ⟨h1, h2, h3⟩ := ih (n / 10) hrec
      refine ⟨?_, by simp [natToStrAux, h10], ?_⟩
      · rw [show natToStrAux (fuel + 1) n =
          natToStrAux fuel (n / 10) ++ [digitChar (n % 10)] by
            simp [natToStrAux, h10]]
        rw [digitsToNat_append, h1, (digitChar_spec (n % 10) (by omega)).1]
        omega
      · intro c hc
        simp only [natToStrAux, if_neg h10, List.mem_append,
          List.mem_singleton] at hc
        rcases hc with hc | hc
        · exact h3 c hc
        · exact ⟨n % 10, by omega, hc⟩

theorem digitsToNat_natToStr (n : Nat) : digitsToNat (natToStr n) = n :=
  (natToStrAux_spec (n + 1) n (Nat.lt_succ_self n)).1

theorem natToStr_ne_nil (n : Nat) : natToStr n ≠ [] :=
  (natToStrAux_spec (n + 1) n (Nat.lt_succ_self n)).2.1

theorem natToStr_digits (n : Nat) :
    ∀ c ∈ natToStr n, ∃ d, d < 10 ∧ c = digitChar d :=
  (natToStrAux_spec (n + 1) n (Nat.lt_succ_self n)).2.2

theorem digitChar_not_ws (d : Nat) (h : d < 10) : isWS (digitChar d) = false := by
  interval_cases d <;> rfl

theorem digitChar_ne_quote (d : Nat) (h : d < 10) : digitChar d ≠ '"' := by
  interval_cases d <;> decide

theorem digitChar_ne_nl (d : Nat) (h : d < 10) : digitChar d ≠ '\n' := by
  interval_cases d <;> decide

theorem digitChar_isDigit (d : Nat) (h : d < 10) : isDigitC (digitChar d) = true :=
  (digitChar_spec d h).2

theorem parseMarkdown_sample_frontmatter :
    parseMarkdown (str "---\ntitle: \"Test Event\"\nstartDate: \"2026-01-15\"\nallDay: true\n---\n\nEvent description here.") =
      ([(str "title", .vStr (str "Test Event")),
        (str "startDate", .vStr (str "2026-01-15")),
        (str "allDay", .vBool true)], str "Event description here.") := by
  decide

theorem parseMarkdown_sample_plain :
    parseMarkdown (str "Just some content without frontmatter") =
      ([], str "Just some content without frontmatter") := by decide

theorem parseMarkdown_sample_numeric :
    parseMarkdown (str "---\nrecurrenceInterval: 2\n---") =
      ([(str "recurrenceInterval", .vInt 2)], []) := by decide

/-- Claim C2: the Easter Sunday dates produced by `calculateEaster`
for 2020–2027 are 2020-04-12, 2021-04-04, 2022-04-17, 2023-04-09,
2024-03-31, 2025-04-20, 2026-04-05 and 2027-03-28. -/
theorem claim_C2_easter_dates :
    formatDate (calculateEaster 2020) = str "2020-04-12" ∧
    formatDate (calculateEaster 2021) = str "2021-04-04" ∧
    formatDate (calculateEaster 2022) = str "2022-04-17" ∧
    formatDate (calculateEaster 2023) = str "2023-04-09" ∧
    formatDate (calculateEaster 2024) = str "2024-03-31" ∧
    formatDate (calculateEaster 2025) = str "2025-04-20" ∧
    formatDate (calculateEaster 2026) = str "2026-04-05" ∧
    formatDate (calculateEaster 2027) = str "2027-03-28" := by
  decide

/-- Claim C3: `getSwedishHolidays 2026` returns exactly 13 holidays,
sorted ascending by date string, with exactly the claimed date set. -/
theorem claim_C3_holidays_2026 :
    (getSwedishHolidays 2026).map Holiday.date =
      [str "2026-01-01", str "2026-01-06", str "2026-04-03",
       str "2026-04-05", str "2026-04-06", str "2026-05-01",
       str "2026-05-14", str "2026-05-24", str "2026-06-06",
       str "2026-06-20", str "2026-10-31", str "2026-12-25",
       str "2026-12-26"] ∧
    (getSwedishHolidays 2026).length = 13 := by
  constructor
  · decide
  · decide

/-- Claim C4: the four reference recurrence expansions — daily (5
instances, Jan 1–5), weekly (4 instances), interval-2 weekly (4
instances), and pass-through of any non-recurring event with its id
unchanged. -/
theorem claim_C4_expansions (e : Event) (s en : Str)
    (h : e.recurrence = none ∨ e.recurrence = some (str "none")) :
    (expandRecurringEvents [evDaily] (str "2026-01-01")
        (str "2026-01-10")).map Event.startDate =
      [str "2026-01-01", str "2026-01-02", str "2026-01-03",
       str "2026-01-04", str "2026-01-05"] ∧
    (expandRecurringEvents [evWeekly] (str "2026-01-01")
        (str "2026-01-31")).map Event.startDate =
      [str "2026-01-05", str "2026-01-12", str "2026-01-19",
       str "2026-01-26"] ∧
    (expandRecurringEvents [evBiweekly] (str "2026-01-01")
        (str "2026-02-28")).map Event.startDate =
      [str "2026-01-05", str "2026-01-19", str "2026-02-02",
       str "2026-02-16"] ∧
    expandRecurringEvents [e] s en = [e] := by
  refine ⟨by decide, by decide, by decide, ?_⟩
  have hnr : nonRecurring e = true := by
    rcases h with h | h <;> simp [nonRecurring, truthyO, oget, h, str]
  simp [expandRecurringEvents, expandOne, hnr]

/-- Witness for C4 at the test suite's non-recurring fixture. -/
theorem claim_C4_expansions_witness :
    (expandRecurringEvents [evDaily] (str "2026-01-01")
        (str "2026-01-10")).map Event.startDate =
      [str "2026-01-01", str "2026-01-02", str "2026-01-03",
       str "2026-01-04", str "2026-01-05"] ∧
    (expandRecurringEvents [evWeekly] (str "2026-01-01")
        (str "2026-01-31")).map Event.startDate =
      [str "2026-01-05", str "2026-01-12", str "2026-01-19",
       str "2026-01-26"] ∧
    (expandRecurringEvents [evBiweekly] (str "2026-01-01")
        (str "2026-02-28")).map Event.startDate =
      [str "2026-01-05", str "2026-01-19", str "2026-02-02",
       str "2026-02-16"] ∧
    expandRecurringEvents [evSingle] (str "2026-01-01")
      (str "2026-01-31") = [evSingle] :=
  claim_C4_expansions evSingle (str "2026-01-01") (str "2026-01-31")
    (Or.inr rfl)

theorem expandLoop_length_le (e : Event) (a b c : Option Nat)
    (d : Option Int) (i : Nat) :
    ∀ fuel cur count, (expandLoop e a b c d i cur count fuel).length ≤ fuel := by
  intro fuel
  induction fuel with
  | zero => intro cur count; simp [expandLoop]
  | succ f ih =>
    intro cur count
    simp only [expandLoop]
    split
    · rw [List.length_append]
      have h1 : (if pushCond cur a d then [mkInstance e cur d] else []).length ≤ 1 := by
        split <;> simp
      have h2 : (if knownRecurrence (oget e.recurrence) then
          expandLoop e a b c d i (advanceDate (oget e.recurrence) i cur)
            (count + 1) f else []).length ≤ f := by
        split
        · exact ih _ _
        · simp
      omega
    · simp

/-- Claim C5: expansion always terminates (the model is a total
function), each source event contributes at most 365 generated
instances — also with `recurrenceInterval = 0` or no
`recurrenceEnd` — per-event contributions concatenate, and an absent
`recurrenceEnd` makes the recurrence ceiling default to the query
end. -/
theorem claim_C5_bounded (e : Event) (es : List Event) (s en : Str) :
    (expandOne s en e).length ≤ 365 ∧
    expandRecurringEvents (e :: es) s en =
      expandOne s en e ++ expandRecurringEvents es s en ∧
    (truthyO e.recurrenceEnd = false →
      recurrenceCeiling e (parseDateO en) = parseDateO en) := by
  refine ⟨?_, ?_, ?_⟩
  · unfold expandOne
    split
    · simp
    · split
      · simp
      · exact expandLoop_length_le _ _ _ _ _ _ _ _ _
  · simp [expandRecurringEvents]
  · intro h
    simp [recurrenceCeiling, h]

theorem claim_C5_bounded_witness :
    (expandOne (str "2026-01-01") (str "2026-01-10") evZeroInterval).length ≤ 365 ∧
    expandRecurringEvents [evZeroInterval] (str "2026-01-01") (str "2026-01-10") =
      expandOne (str "2026-01-01") (str "2026-01-10") evZeroInterval ++
        expandRecurringEvents [] (str "2026-01-01") (str "2026-01-10") ∧
    recurrenceCeiling evZeroInterval (parseDateO (str "2026-01-10")) =
      parseDateO (str "2026-01-10") :=
  have h := claim_C5_bounded evZeroInterval [] (str "2026-01-01") (str "2026-01-10")
  ⟨h.1, h.2.1, h.2.2 (by decide)⟩

/-- Claim C9: validation collects the full error list: with both
dates malformed it reports both format errors simultaneously, and
with well-formed dates in the wrong order it reports exactly the
single ordering error. -/
theorem claim_C9_validate_full_list :
    validateEvent bothMalformed =
      [str "Invalid start date format (expected YYYY-MM-DD)",
       str "Invalid end date format (expected YYYY-MM-DD)"] ∧
    validateEvent endBeforeStart =
      [str "End date must be on or after start date"] := by
  constructor
  · decide
  · decide

/-- Claim C7 (demonstration of the code bug): `loadAllEvents` keeps a
frontmatter `endTime` on an event it computes as all-day, and
`createEvent` with `allDay` undefined keeps a supplied `startTime` on
an event it marks all-day — both violating the spec's invariant that
`allDay = true` implies both time fields are null.  (`updateEvent`
does enforce the invariant.) -/
theorem claim_C7_invariant_violated :
    (loadEventFromContent (str "fresh-id") c7Content).map
        (fun ev => (ev.allDay, ev.endTime)) =
      some (true, some (str "10:00")) ∧
    (createEvent (str "fresh-id") c7Create).map
        (fun ev => (ev.allDay, ev.startTime)) =
      some (true, some (str "09:00")) := by
  constructor
  · decide
  · decide

theorem takeWhile_ne_append (a b : Str) (h : '_' ∉ a) :
    (a ++ '_' :: b).takeWhile (· != '_') = a := by
  induction a with
  | nil => simp [List.takeWhile_cons]
  | cons c cs ih =>
    have hc : c ≠ '_' := by
      intro e; exact h (e ▸ List.mem_cons_self c cs)
    have hcs : '_' ∉ cs := fun hm => h (List.mem_cons_of_mem c hm)
    simp only [List.cons_append, List.takeWhile_cons]
    simp [hc, ih hcs]

theorem splitId_composite (oid ds : Str) (h : '_' ∉ oid) :
    splitId (oid ++ '_' :: ds) = oid := by
  unfold splitId
  rw [if_pos (by simp)]
  exact takeWhile_ne_append oid ds h

theorem mergePatch_id (ex : Event) (p : EventData) (oid : Str) :
    (mergePatch ex p oid).id = oid := by
  simp only [mergePatch]
  split
  · rfl
  · rfl

/-- Claim C8: update/delete through a composite id
`originalId ++ "_" ++ date` (with an underscore-free `originalId`)
resolve to the base event: update merges the patch and re-stores under
`originalId` only, delete removes exactly that entry and returns
`true`; with no matching base event, update fails (NotFound) and
delete returns `false` with the map unchanged. -/
theorem claim_C8_composite_ids (m : EventMap) (oid ds : Str)
    (p : EventData) (h : '_' ∉ oid) :
    (∀ base, m oid = some base →
      updateEvent m (oid ++ '_' :: ds) p =
        some (mergePatch base p oid,
          fun k => if k = oid then some (mergePatch base p oid) else m k) ∧
      deleteEvent m (oid ++ '_' :: ds) =
        (true, fun k => if k = oid then none else m k)) ∧
    (m oid = none →
      updateEvent m (oid ++ '_' :: ds) p = none ∧
      deleteEvent m (oid ++ '_' :: ds) = (false, m)) := by
  have hs := splitId_composite oid ds h
  constructor
  · intro base hb
    constructor
    · simp only [updateEvent, hs, hb, mergePatch_id]
    · simp only [deleteEvent, hs, hb]
  · intro hb
    constructor
    · simp only [updateEvent, hs, hb]
    · simp only [deleteEvent, hs, hb]

theorem claim_C8_composite_ids_witness :
    updateEvent c8Map (str "base-1" ++ '_' :: str "2026-02-01") c8Patch =
      some (mergePatch evBase c8Patch (str "base-1"),
        fun k => if k = str "base-1" then
          some (mergePatch evBase c8Patch (str "base-1")) else c8Map k) ∧
    deleteEvent c8Map (str "base-1" ++ '_' :: str "2026-02-01") =
      (true, fun k => if k = str "base-1" then none else c8Map k) :=
  (claim_C8_composite_ids c8Map (str "base-1") (str "2026-02-01") c8Patch
    (by decide)).1 evBase (by decide)

/-- Counterexample to claim C10 as stated: with both `"a"` and
`"a_b"` stored, deleting by the exact id `"a_b"` does not return
`false` leaving the store unchanged — it returns `true` and removes
the prefix event `"a"`. -/
theorem claim_C10_counterexample :
    c10Map (str "a_b") = some evAB ∧
    '_' ∈ str "a_b" ∧
    (deleteEvent c10Map (str "a_b")).1 = true ∧
    (deleteEvent c10Map (str "a_b")).2 (str "a") = none := by
  refine ⟨by decide, by decide, by decide, by decide⟩

theorem splitId_ne_of_underscore (id : Str) (hid : '_' ∈ id) :
    splitId id ≠ id := by
  unfold splitId
  rw [if_pos hid]
  intro he
  have h2 : (fun x => x != '_') '_' = true :=
    List.mem_takeWhile_imp (p := fun x => x != '_') (he ▸ hid)
  simp at h2

/-- Claim C10 (amended): for a stored event whose own id contains an
underscore, update/delete truncate the id at the first underscore, so
they never address the event itself: when no event has the prefix id,
update throws NotFound and delete returns `false` with the store
unchanged; when a prefix event exists, both address that other event
(delete then returns `true`); in every case the underscore-id event
itself stays in the store. -/
theorem claim_C10_underscore_lookup (m : EventMap) (id : Str) (e : Event)
    (p : EventData) (hid : '_' ∈ id) (hm : m id = some e) :
    splitId id ≠ id ∧
    (m (splitId id) = none →
      updateEvent m id p = none ∧ deleteEvent m id = (false, m)) ∧
    (∀ base, m (splitId id) = some base →
      updateEvent m id p =
        some (mergePatch base p (splitId id),
          fun k => if k = splitId id then
            some (mergePatch base p (splitId id)) else m k) ∧
      deleteEvent m id = (true, fun k => if k = splitId id then none else m k)) ∧
    (deleteEvent m id).2 id = some e := by
  have hne := splitId_ne_of_underscore id hid
  refine ⟨hne, ?_, ?_, ?_⟩
  · intro hb
    exact ⟨by simp only [updateEvent, hb], by simp only [deleteEvent, hb]⟩
  · intro base hb
    constructor
    · simp only [updateEvent, hb, mergePatch_id]
    · simp only [deleteEvent, hb]
  · simp only [deleteEvent]
    cases hb : m (splitId id) with
    | none => exact hm
    | some base =>
      show (if id = splitId id then none else m id) = some e
      rw [if_neg (Ne.symm hne)]
      exact hm

theorem claim_C10_underscore_lookup_witness :
    splitId (str "a_b") ≠ str "a_b" ∧
    deleteEvent c10Map (str "a_b") =
      (true, fun k => if k = splitId (str "a_b") then none else c10Map k) ∧
    (deleteEvent c10Map (str "a_b")).2 (str "a_b") = some evAB :=
  have h := claim_C10_underscore_lookup c10Map (str "a_b") evAB {}
    (by decide) (by decide)
  ⟨h.1, (h.2.2.1 evA (by decide)).2, h.2.2.2⟩

theorem prefixB_take_false (p : Str) : ∀ (a rest : Str),
    prefixB (p.take a.length) a = false → prefixB p (a ++ rest) = false := by
  induction p with
  | nil =>
    intro a rest h
    simp [prefixB] at h
  | cons c cs ih =>
    intro a rest h
    cases a with
    | nil => simp [List.take, prefixB] at h
    | cons b bs =>
      simp only [List.length_cons, List.take_succ_cons, prefixB] at h
      simp only [List.cons_append, prefixB]
      by_cases hcb : c = b
      · rw [if_pos hcb] at h ⊢
        exact ih bs rest h
      · rw [if_neg hcb]

theorem prefixB_lineOf_self (K v : Str) :
    prefixB (K ++ [':']) (lineOf K v) = true := by
  have h : lineOf K v = (K ++ [':']) ++ (' ' :: v) := by simp [lineOf]
  rw [h, prefixB_self_append]

theorem prefixB_lineOf_ne (K k v : Str)
    (h : prefixB ((K ++ [':']).take (k ++ [':', ' ']).length)
      (k ++ [':', ' ']) = false) :
    prefixB (K ++ [':']) (lineOf k v) = false := by
  have hsh : lineOf k v = (k ++ [':', ' ']) ++ v := by simp [lineOf]
  rw [hsh]
  exact prefixB_take_false _ _ _ h

theorem hasKey_append (K : Str) (A B : List Str) :
    hasKey K (A ++ B) = (hasKey K A || hasKey K B) := by
  simp [hasKey, List.any_append]

theorem hasKey_endDate_fmLines (e : Event) :
    hasKey (str "endDate") (fmLines e) = emitEndDate e := by
  have hid := prefixB_lineOf_ne (str "endDate") (str "id") (quote e.id) (by decide)
  have hti := prefixB_lineOf_ne (str "endDate") (str "title")
    (quote (escapeQ e.title)) (by decide)
  have hsd := prefixB_lineOf_ne (str "endDate") (str "startDate")
    (quote e.startDate) (by decide)
  have had := prefixB_lineOf_ne (str "endDate") (str "allDay")
    (if e.allDay then str "true" else str "false") (by decide)
  have hst := prefixB_lineOf_ne (str "endDate") (str "startTime")
    (quote (oget e.startTime)) (by decide)
  have het := prefixB_lineOf_ne (str "endDate") (str "endTime")
    (quote (oget e.endTime)) (by decide)
  have hco := prefixB_lineOf_ne (str "endDate") (str "color")
    (quote e.color) (by decide)
  have hty := prefixB_lineOf_ne (str "endDate") (str "type")
    (quote (if e.type = [] then str "personal" else e.type)) (by decide)
  have hre := prefixB_lineOf_ne (str "endDate") (str "recurrence")
    (quote (oget e.recurrence)) (by decide)
  have hree := prefixB_lineOf_ne (str "endDate") (str "recurrenceEnd")
    (quote (oget e.recurrenceEnd)) (by decide)
  have hrei := prefixB_lineOf_ne (str "endDate") (str "recurrenceInterval")
    (natToStr ((e.recurrenceInterval).getD 0)) (by decide)
  have hself := prefixB_lineOf_self (str "endDate") (quote (oget e.endDate))
  simp only [fmLines, hasKey_append, hasKey, List.any_cons, List.any_nil,
    hid, hti, hsd, had, hst, het, hco, hty, hre, hree, hrei, hself]
  cases hED : emitEndDate e <;>
    cases hST : emitStartTime e <;>
      cases hET : truthyO e.endTime <;>
        cases hR : emitRec e <;>
          cases hRE : truthyO e.recurrenceEnd <;>
            cases hRI : emitRecInterval e <;>
              simp_all

theorem hasKey_startTime_fmLines (e : Event) :
    hasKey (str "startTime") (fmLines e) = emitStartTime e := by
  have hid := prefixB_lineOf_ne (str "startTime") (str "id") (quote e.id) (by decide)
  have hti := prefixB_lineOf_ne (str "startTime") (str "title")
    (quote (escapeQ e.title)) (by decide)
  have hsd := prefixB_lineOf_ne (str "startTime") (str "startDate")
    (quote e.startDate) (by decide)
  have hed := prefixB_lineOf_ne (str "startTime") (str "endDate")
    (quote (oget e.endDate)) (by decide)
  have had := prefixB_lineOf_ne (str "startTime") (str "allDay")
    (if e.allDay then str "true" else str "false") (by decide)
  have het := prefixB_lineOf_ne (str "startTime") (str "endTime")
    (quote (oget e.endTime)) (by decide)
  have hco := prefixB_lineOf_ne (str "startTime") (str "color")
    (quote e.color) (by decide)
  have hty := prefixB_lineOf_ne (str "startTime") (str "type")
    (quote (if e.type = [] then str "personal" else e.type)) (by decide)
  have hre := prefixB_lineOf_ne (str "startTime") (str "recurrence")
    (quote (oget e.recurrence)) (by decide)
  have hree := prefixB_lineOf_ne (str "startTime") (str "recurrenceEnd")
    (quote (oget e.recurrenceEnd)) (by decide)
  have hrei := prefixB_lineOf_ne (str "startTime") (str "recurrenceInterval")
    (natToStr ((e.recurrenceInterval).getD 0)) (by decide)
  have hself := prefixB_lineOf_self (str "startTime") (quote (oget e.startTime))
  simp only [fmLines, hasKey_append, hasKey, List.any_cons, List.any_nil]
  cases hED : emitEndDate e <;>
    cases hST : emitStartTime e <;>
      cases hET : truthyO e.endTime <;>
        cases hR : emitRec e <;>
          cases hRE : truthyO e.recurrenceEnd <;>
            cases hRI : emitRecInterval e <;>
              simp_all

theorem hasKey_endTime_fmLines (e : Event) :
    hasKey (str "endTime") (fmLines e) =
      (emitStartTime e && truthyO e.endTime) := by
  have hid := prefixB_lineOf_ne (str "endTime") (str "id") (quote e.id) (by decide)
  have hti := prefixB_lineOf_ne (str "endTime") (str "title")
    (quote (escapeQ e.title)) (by decide)
  have hsd := prefixB_lineOf_ne (str "endTime") (str "startDate")
    (quote e.startDate) (by decide)
  have hed := prefixB_lineOf_ne (str "endTime") (str "endDate")
    (quote (oget e.endDate)) (by decide)
  have had := prefixB_lineOf_ne (str "endTime") (str "allDay")
    (if e.allDay then str "true" else str "false") (by decide)
  have hst := prefixB_lineOf_ne (str "endTime") (str "startTime")
    (quote (oget e.startTime)) (by decide)
  have hco := prefixB_lineOf_ne (str "endTime") (str "color")
    (quote e.color) (by decide)
  have hty := prefixB_lineOf_ne (str "endTime") (str "type")
    (quote (if e.type = [] then str "personal" else e.type)) (by decide)
  have hre := prefixB_lineOf_ne (str "endTime") (str "recurrence")
    (quote (oget e.recurrence)) (by decide)
  have hree := prefixB_lineOf_ne (str "endTime") (str "recurrenceEnd")
    (quote (oget e.recurrenceEnd)) (by decide)
  have hrei := prefixB_lineOf_ne (str "endTime") (str "recurrenceInterval")
    (natToStr ((e.recurrenceInterval).getD 0)) (by decide)
  have hself := prefixB_lineOf_self (str "endTime") (quote (oget e.endTime))
  simp only [fmLines, hasKey_append, hasKey, List.any_cons, List.any_nil]
  cases hED : emitEndDate e <;>
    cases hST : emitStartTime e <;>
      cases hET : truthyO e.endTime <;>
        cases hR : emitRec e <;>
          cases hRE : truthyO e.recurrenceEnd <;>
            cases hRI : emitRecInterval e <;>
              simp_all

/-- Counterexample to claim C6 as stated: `e6.endDate` (absent)
differs from `e6.startDate` yet no `endDate` line is emitted, and
`e6.allDay` is not true yet no `startTime` line is emitted. -/
theorem claim_C6_counterexample :
    e6.endDate ≠ some e6.startDate ∧
    hasKey (str "endDate") (fmLines e6) = false ∧
    e6.allDay ≠ true ∧
    hasKey (str "startTime") (fmLines e6) = false := by
  refine ⟨by decide, by decide, by decide, by decide⟩

/-- Claim C6 (amended): serialization emits an `endDate` line iff
`endDate` is present, nonempty and differs from `startDate`; a
`startTime` line iff the event is not all-day and has a nonempty
`startTime`; and an `endTime` line iff additionally `endTime` is
present and nonempty. -/
theorem claim_C6_emission (e : Event) :
    (hasKey (str "endDate") (fmLines e) = true ↔
      (∃ d, e.endDate = some d ∧ d ≠ [] ∧ d ≠ e.startDate)) ∧
    (hasKey (str "startTime") (fmLines e) = true ↔
      (e.allDay = false ∧ ∃ t, e.startTime = some t ∧ t ≠ [])) ∧
    (hasKey (str "endTime") (fmLines e) = true ↔
      (e.allDay = false ∧ (∃ t, e.startTime = some t ∧ t ≠ []) ∧
        ∃ u, e.endTime = some u ∧ u ≠ [])) := by
  rw [hasKey_endDate_fmLines, hasKey_startTime_fmLines, hasKey_endTime_fmLines]
  refine ⟨?_, ?_, ?_⟩
  · cases hd : e.endDate with
    | none => simp [emitEndDate, truthyO, oget, hd]
    | some d =>
      simp only [emitEndDate, truthyO, oget, hd, Option.getD_some]
      constructor
      · intro h
        simp only [Bool.and_eq_true, decide_eq_true_eq] at h
        exact ⟨d, rfl, h.1, h.2⟩
      · rintro ⟨d', hd', h1, h2⟩
        cases hd'
        simp [h1, h2]
  · cases ht : e.startTime with
    | none => simp [emitStartTime, truthyO, oget, ht]
    | some t =>
      simp only [emitStartTime, truthyO, oget, ht, Option.getD_some]
      constructor
      · intro h
        simp only [Bool.and_eq_true, Bool.not_eq_true', decide_eq_true_eq] at h
        exact ⟨h.1, t, rfl, h.2⟩
      · rintro ⟨h1, t', ht', h2⟩
        cases ht'
        simp [h1, h2]
  · cases ht : e.startTime with
    | none => simp [emitStartTime, truthyO, oget, ht]
    | some t =>
      cases hu : e.endTime with
      | none => simp [emitStartTime, truthyO, oget, ht, hu]
      | some u =>
        simp only [emitStartTime, truthyO, oget, ht, hu, Option.getD_some]
        constructor
        · intro h
          simp only [Bool.and_eq_true, Bool.not_eq_true',
            decide_eq_true_eq] at h
          exact ⟨h.1.1, ⟨t, rfl, h.1.2⟩, ⟨u, rfl, h.2⟩⟩
        · rintro ⟨h1, ⟨t', ht', h2⟩, ⟨u', hu', h3⟩⟩
          cases ht'
          cases hu'
          simp [h1, h2, h3]

/-! ## Claim C1: the parse/serialize round trip -/

theorem colonIdx_append (k rest : Str) (hk : ':' ∉ k) :
    colonIdx (k ++ ':' :: rest) = some k.length := by
  induction k with
  | nil => simp [colonIdx]
  | cons c cs ih =>
    have hc : c ≠ ':' := by
      intro hcc; exact hk (hcc ▸ List.mem_cons_self c cs)
    have hcs : ':' ∉ cs := fun hm => hk (List.mem_cons_of_mem c hm)
    simp only [List.cons_append, colonIdx, if_neg hc, List.append_eq]
    rw [ih hcs]
    simp

theorem parseLine_lineOf (k v : Str) (hk : ':' ∉ k) (hk0 : k ≠ [])
    (hkt : trim k = k) :
    parseLine (lineOf k v) = some (k, processValue (trim v)) := by
  unfold parseLine
  rw [show lineOf k v = k ++ ':' :: (' ' :: v) from rfl,
    colonIdx_append _ _ hk]
  simp only
  rw [if_pos (List.length_pos.mpr hk0)]
  have htake : (k ++ ':' :: ' ' :: v).take k.length = k := List.take_left k _
  have hdrop : (k ++ ':' :: ' ' :: v).drop (k.length + 1) = ' ' :: v := by
    have h1 : (k ++ ':' :: ' ' :: v).drop k.length = ':' :: ' ' :: v :=
      List.drop_left k _
    have h2 : (k ++ ':' :: ' ' :: v).drop (k.length + 1) =
        ((k ++ ':' :: ' ' :: v).drop k.length).drop 1 := by
      rw [List.drop_drop]
    rw [h2, h1]
    rfl
  rw [htake, hdrop, hkt, trim_cons_ws ' ' v (by decide)]

theorem getLast?_quote (f : Str) : (quote f).getLast? = some '"' := by
  have h : quote f = ('"' :: f) ++ ['"'] := by simp [quote]
  rw [h, List.getLast?_concat]

theorem trim_quote (f : Str) : trim (quote f) = quote f := by
  apply trim_eq_self
  · intro c hc
    have hq : quote f = '"' :: (f ++ ['"']) := by simp [quote]
    rw [hq, List.head?_cons] at hc
    cases hc
    rfl
  · intro c hc
    rw [getLast?_quote] at hc
    cases hc
    rfl

theorem stripQuotes_quote (f : Str) : stripQuotes (quote f) = f := by
  have hq : quote f = '"' :: (f ++ ['"']) := by simp [quote]
  have h1 : (quote f).head? = some '"' := by rw [hq]; rfl
  have h2 := getLast?_quote f
  unfold stripQuotes
  split
  · rw [hq]
    simp only [List.drop_succ_cons, List.drop_zero]
    exact List.dropLast_concat
  · next heq _ =>
    rw [h1] at heq
    cases heq
  · next x y hno1 hno2 =>
    exact (hno1 h1 h2).elim

theorem processValue_quoted (f : Str) :
    processValue (trim (quote f)) = coerceVal f := by
  rw [trim_quote]
  unfold processValue
  rw [stripQuotes_quote]

theorem escapeQ_id (s : Str) (h : '"' ∉ s) : escapeQ s = s := by
  induction s with
  | nil => rfl
  | cons c cs ih =>
    have hc : c ≠ '"' := by
      intro hcc; exact h (hcc ▸ List.mem_cons_self c cs)
    have hcs : '"' ∉ cs := fun hm => h (List.mem_cons_of_mem c hm)
    simp only [escapeQ, List.flatMap_cons, if_neg hc]
    have ih2 := ih hcs
    simp only [escapeQ] at ih2
    rw [ih2]
    rfl

theorem processValue_bool (b : Bool) :
    processValue (trim (if b then str "true" else str "false")) =
      .vBool b := by
  cases b
  · decide
  · decide

theorem natToStr_head_digit (n : Nat) :
    ∃ c rest, natToStr n = c :: rest ∧ ∃ d, d < 10 ∧ c = digitChar d := by
  cases h : natToStr n with
  | nil => exact absurd h (natToStr_ne_nil n)
  | cons c rest =>
    refine ⟨c, rest, rfl, ?_⟩
    exact natToStr_digits n c (h ▸ List.mem_cons_self c rest)

theorem trim_natToStr (n : Nat) : trim (natToStr n) = natToStr n := by
  apply trim_eq_self
  · intro c hc
    have hm : c ∈ natToStr n := by
      cases h : natToStr n with
      | nil => rw [h] at hc; cases hc
      | cons x xs =>
        rw [h, List.head?_cons] at hc
        cases hc
        exact h ▸ List.mem_cons_self c xs
    obtain ⟨d, hd, rfl⟩ := natToStr_digits n c hm
    exact digitChar_not_ws d hd
  · intro c hc
    have hm : c ∈ natToStr n := List.mem_of_mem_getLast? hc
    obtain ⟨d, hd, rfl⟩ := natToStr_digits n c hm
    exact digitChar_not_ws d hd

theorem stripQuotes_natToStr (n : Nat) :
    stripQuotes (natToStr n) = natToStr n := by
  obtain ⟨c, rest, heq, d, hd, hcd⟩ := natToStr_head_digit n
  have hh : (natToStr n).head? = some c := by rw [heq]; rfl
  unfold stripQuotes
  split
  · next heq1 _ =>
    rw [hh] at heq1
    cases heq1
    interval_cases d <;> exact absurd hcd (by decide)
  · next heq1 _ =>
    rw [hh] at heq1
    cases heq1
    interval_cases d <;> exact absurd hcd (by decide)
  · rfl

theorem isDigits_natToStr (n : Nat) : isDigits (natToStr n) = true := by
  unfold isDigits
  rw [Bool.and_eq_true]
  constructor
  · simp [natToStr_ne_nil n]
  · rw [List.all_eq_true]
    intro c hc
    obtain ⟨d, hd, rfl⟩ := natToStr_digits n c hc
    exact digitChar_isDigit d hd

theorem natToStr_ne_true (n : Nat) : natToStr n ≠ str "true" := by
  intro h
  have hm : 't' ∈ natToStr n := by rw [h]; decide
  obtain ⟨d, hd, hc⟩ := natToStr_digits n 't' hm
  revert hc
  interval_cases d <;> decide

theorem natToStr_ne_false (n : Nat) : natToStr n ≠ str "false" := by
  intro h
  have hm : 'f' ∈ natToStr n := by rw [h]; decide
  obtain ⟨d, hd, hc⟩ := natToStr_digits n 'f' hm
  revert hc
  interval_cases d <;> decide

theorem processValue_nat (n : Nat) :
    processValue (trim (natToStr n)) = .vInt n := by
  rw [trim_natToStr]
  unfold processValue
  rw [stripQuotes_natToStr]
  unfold coerceVal
  rw [if_neg (natToStr_ne_true n), if_neg (natToStr_ne_false n),
    if_pos (isDigits_natToStr n), digitsToNat_natToStr]

theorem fmLines_ne_nil (e : Event) : fmLines e ≠ [] := by
  simp [fmLines]

theorem splitFirstOn_joinNL2 (H : List Str) (b : Str) (hne : H ≠ [])
    (hl : ∀ l ∈ H, '\n' ∉ l ∧ ∃ c cs, l = c :: cs ∧ c ≠ '-') :
    splitFirstOn ('\n' :: str "---") (joinNL H ++ '\n' :: (str "---" ++ b)) =
      some (joinNL H, b) := by
  rw [show joinNL H ++ '\n' :: (str "---" ++ b) =
      joinNL H ++ '\n' :: str "---" ++ b by simp]
  exact splitFirstOn_joinNL H b hne hl

theorem parseMarkdown_serializeEvent (e : Event)
    (hwf : ∀ l ∈ fmLines e, '\n' ∉ l ∧ ∃ c cs, l = c :: cs ∧ c ≠ '-')
    (hdesc : trim e.description = e.description) :
    parseMarkdown (serializeEvent e) =
      ((fmLines e).filterMap parseLine, e.description) := by
  have hH : fmLines e ≠ [] := fmLines_ne_nil e
  have hnl : ∀ l ∈ fmLines e, '\n' ∉ l := fun l hl => (hwf l hl).1
  by_cases hD : e.description = []
  · have hser : serializeEvent e =
        str "---\n" ++ (joinNL (fmLines e) ++
          '\n' :: (str "---" ++ ['\n'])) := by
      unfold serializeEvent
      rw [if_neg (by simp [hD]), List.append_nil, List.cons_append,
        joinNL_cons (str "---") (fmLines e ++ [str "---", []])
          (by simp [hH]),
        joinNL_append (fmLines e) [str "---", []] hH (by simp)]
      rfl
    have hsplit : fmSplit (serializeEvent e) =
        some (joinNL (fmLines e), []) := by
      unfold fmSplit
      rw [hser, if_pos (prefixB_self_append _ _),
        show (4 : Nat) = (str "---\n").length from rfl, List.drop_left,
        splitFirstOn_joinNL2 _ _ hH hwf]
      rfl
    unfold parseMarkdown
    rw [hsplit]
    show ((splitNL (joinNL (fmLines e))).filterMap parseLine, trim []) = _
    rw [splitNL_joinNL _ hH hnl, trim_nil, hD]
  · have hser : serializeEvent e =
        str "---\n" ++ (joinNL (fmLines e) ++
          '\n' :: (str "---" ++ ('\n' :: '\n' :: e.description))) := by
      unfold serializeEvent
      rw [if_pos hD, List.cons_append, List.cons_append,
        List.append_assoc,
        joinNL_cons (str "---")
          (fmLines e ++ ([str "---", []] ++ [e.description]))
          (by simp [hH]),
        joinNL_append (fmLines e) ([str "---", []] ++ [e.description])
          hH (by simp)]
      rfl
    have hsplit : fmSplit (serializeEvent e) =
        some (joinNL (fmLines e), '\n' :: e.description) := by
      unfold fmSplit
      rw [hser, if_pos (prefixB_self_append _ _),
        show (4 : Nat) = (str "---\n").length from rfl, List.drop_left,
        splitFirstOn_joinNL2 _ _ hH hwf]
      rfl
    unfold parseMarkdown
    rw [hsplit]
    show ((splitNL (joinNL (fmLines e))).filterMap parseLine,
      trim ('\n' :: e.description)) = _
    rw [splitNL_joinNL _ hH hnl, trim_cons_ws '\n' _ (by decide), hdesc]

theorem nl_not_mem_quote (f : Str) (h : '\n' ∉ f) : '\n' ∉ quote f := by
  intro hm
  rw [show quote f = '"' :: (f ++ ['"']) by simp [quote]] at hm
  rcases List.mem_cons.mp hm with hm | hm
  · exact absurd hm (by decide)
  · rcases List.mem_append.mp hm with hm | hm
    · exact h hm
    · exact absurd (List.mem_singleton.mp hm) (by decide)

theorem escapeQ_no_nl (s : Str) (h : '\n' ∉ s) : '\n' ∉ escapeQ s := by
  induction s with
  | nil => simp [escapeQ]
  | cons c cs ih =>
    have hc : c ≠ '\n' := by
      intro hcc
      exact h (hcc ▸ List.mem_cons_self c cs)
    have hcs : '\n' ∉ cs := fun hm => h (List.mem_cons_of_mem c hm)
    intro hm
    have hshape : escapeQ (c :: cs) =
        (if c = '"' then ['\\', '"'] else [c]) ++ escapeQ cs := by
      simp [escapeQ]
    rw [hshape] at hm
    rcases List.mem_append.mp hm with hm | hm
    · by_cases hq : c = '"'
      · rw [if_pos hq] at hm
        rcases List.mem_cons.mp hm with hm | hm
        · exact absurd hm (by decide)
        · rcases List.mem_cons.mp hm with hm | hm
          · exact absurd hm (by decide)
          · cases hm
      · rw [if_neg hq] at hm
        rcases List.mem_cons.mp hm with hm | hm
        · exact hc hm.symm
        · cases hm
    · exact ih hcs hm

theorem nl_not_mem_natToStr (n : Nat) : '\n' ∉ natToStr n := by
  intro hm
  obtain ⟨d, hd, hc⟩ := natToStr_digits n '\n' hm
  revert hc
  interval_cases d <;> decide

theorem nl_not_mem_oget_quote (o : Option Str) (h : goodOpt o) :
    '\n' ∉ quote (oget o) := by
  apply nl_not_mem_quote
  cases o with
  | none => simp [oget]
  | some s => exact (h s rfl).2.1

theorem wf_lineOf (c : Char) (cs v : Str) (hc : c ≠ '-')
    (hknl : '\n' ∉ c :: cs) (hvnl : '\n' ∉ v) :
    '\n' ∉ lineOf (c :: cs) v ∧
      ∃ c' cs', lineOf (c :: cs) v = c' :: cs' ∧ c' ≠ '-' := by
  constructor
  · intro hm
    simp only [lineOf, List.cons_append, List.mem_cons] at hm
    rcases hm with hm | hm
    · exact hknl (hm ▸ List.mem_cons_self c cs)
    · rcases List.mem_append.mp hm with hm | hm
      · exact hknl (List.mem_cons_of_mem c hm)
      · simp only [List.mem_cons] at hm
        rcases hm with hm | hm | hm
        · exact absurd hm (by decide)
        · exact absurd hm (by decide)
        · exact hvnl hm
  · exact ⟨c, cs ++ ':' :: ' ' :: v, by simp [lineOf], hc⟩

theorem mem_of_mem_ite_nil {α : Type} (c : Prop) [Decidable c] (a : α)
    (L : List α) (h : a ∈ (if c then L else [])) : a ∈ L := by
  by_cases hc : c
  · rwa [if_pos hc] at h
  · rw [if_neg hc] at h
    cases h

theorem fmLines_wf (e : Event)
    (hid : goodStr e.id) (hti : goodStr e.title) (hsd : goodStr e.startDate)
    (hcol : goodStr e.color) (hty : goodStr e.type)
    (hed : goodOpt e.endDate) (hst : goodOpt e.startTime)
    (het : goodOpt e.endTime) (hre : goodOpt e.recurrence)
    (hree : goodOpt e.recurrenceEnd) :
    ∀ l ∈ fmLines e, '\n' ∉ l ∧ ∃ c cs, l = c :: cs ∧ c ≠ '-' := by
  intro l hl
  simp only [fmLines, List.cons_append, List.nil_append, List.mem_append,
    List.mem_cons, List.mem_singleton, List.not_mem_nil, or_false,
    or_assoc] at hl
  rcases hl with rfl | rfl | rfl | hl | rfl | hl | rfl | rfl | hl
  · exact wf_lineOf 'i' _ _ (by decide) (by decide)
      (nl_not_mem_quote _ hid.2.1)
  · exact wf_lineOf 't' _ _ (by decide) (by decide)
      (nl_not_mem_quote _ (escapeQ_no_nl _ hti.2.1))
  · exact wf_lineOf 's' _ _ (by decide) (by decide)
      (nl_not_mem_quote _ hsd.2.1)
  · have hl2 := mem_of_mem_ite_nil _ _ _ hl
    rcases List.mem_singleton.mp hl2 with rfl
    exact wf_lineOf 'e' _ _ (by decide) (by decide)
      (nl_not_mem_oget_quote _ hed)
  · refine wf_lineOf 'a' _ _ (by decide) (by decide) ?_
    cases e.allDay <;> decide
  · have hl2 := mem_of_mem_ite_nil _ _ _ hl
    rcases List.mem_cons.mp hl2 with rfl | hl3
    · exact wf_lineOf 's' _ _ (by decide) (by decide)
        (nl_not_mem_oget_quote _ hst)
    · have hl4 := mem_of_mem_ite_nil _ _ _ hl3
      rcases List.mem_singleton.mp hl4 with rfl
      exact wf_lineOf 'e' _ _ (by decide) (by decide)
        (nl_not_mem_oget_quote _ het)
  · exact wf_lineOf 'c' _ _ (by decide) (by decide)
      (nl_not_mem_quote _ hcol.2.1)
  · refine wf_lineOf 't' _ _ (by decide) (by decide) ?_
    apply nl_not_mem_quote
    by_cases h0 : e.type = []
    · rw [if_pos h0]
      decide
    · rw [if_neg h0]
      exact hty.2.1
  · have hl2 := mem_of_mem_ite_nil _ _ _ hl
    rcases List.mem_cons.mp hl2 with rfl | hl3
    · exact wf_lineOf 'r' _ _ (by decide) (by decide)
        (nl_not_mem_oget_quote _ hre)
    · rcases List.mem_append.mp hl3 with hl3 | hl3
      · have hl4 := mem_of_mem_ite_nil _ _ _ hl3
        rcases List.mem_singleton.mp hl4 with rfl
        exact wf_lineOf 'r' _ _ (by decide) (by decide)
          (nl_not_mem_oget_quote _ hree)
      · have hl4 := mem_of_mem_ite_nil _ _ _ hl3
        rcases List.mem_singleton.mp hl4 with rfl
        exact wf_lineOf 'r' _ _ (by decide) (by decide)
          (nl_not_mem_natToStr _)

theorem coerce_oget (o : Option Str) (h : goodOpt o) :
    coerceVal (oget o) = .vStr (oget o) := by
  cases o with
  | none => decide
  | some s => exact (h s rfl).2.2

theorem filterMap_ite {α β : Type} (c : Prop) [Decidable c]
    (f : α → Option β) (L : List α) :
    (if c then L else []).filterMap f =
      if c then L.filterMap f else [] := by
  split <;> rfl

theorem filterMap_fmLines (e : Event)
    (hid : goodStr e.id) (hti : goodStr e.title) (hsd : goodStr e.startDate)
    (hcol : goodStr e.color) (hty : goodStr e.type) (hty0 : e.type ≠ [])
    (hed : goodOpt e.endDate) (hst : goodOpt e.startTime)
    (het : goodOpt e.endTime) (hre : goodOpt e.recurrence)
    (hree : goodOpt e.recurrenceEnd) :
    (fmLines e).filterMap parseLine = parsedPairs e := by
  have pid : parseLine (lineOf (str "id") (quote e.id)) =
      some (str "id", Val.vStr e.id) := by
    rw [parseLine_lineOf _ _ (by decide) (by decide) (by decide),
      processValue_quoted, hid.2.2]
  have pti : parseLine (lineOf (str "title") (quote (escapeQ e.title))) =
      some (str "title", Val.vStr e.title) := by
    rw [parseLine_lineOf _ _ (by decide) (by decide) (by decide),
      processValue_quoted, escapeQ_id _ hti.1, hti.2.2]
  have psd : parseLine (lineOf (str "startDate") (quote e.startDate)) =
      some (str "startDate", Val.vStr e.startDate) := by
    rw [parseLine_lineOf _ _ (by decide) (by decide) (by decide),
      processValue_quoted, hsd.2.2]
  have ped : parseLine (lineOf (str "endDate") (quote (oget e.endDate))) =
      some (str "endDate", Val.vStr (oget e.endDate)) := by
    rw [parseLine_lineOf _ _ (by decide) (by decide) (by decide),
      processValue_quoted, coerce_oget _ hed]
  have pad : parseLine (lineOf (str "allDay")
      (if e.allDay then str "true" else str "false")) =
      some (str "allDay", Val.vBool e.allDay) := by
    rw [parseLine_lineOf _ _ (by decide) (by decide) (by decide),
      processValue_bool]
  have pst : parseLine (lineOf (str "startTime") (quote (oget e.startTime))) =
      some (str "startTime", Val.vStr (oget e.startTime)) := by
    rw [parseLine_lineOf _ _ (by decide) (by decide) (by decide),
      processValue_quoted, coerce_oget _ hst]
  have pet : parseLine (lineOf (str "endTime") (quote (oget e.endTime))) =
      some (str "endTime", Val.vStr (oget e.endTime)) := by
    rw [parseLine_lineOf _ _ (by decide) (by decide) (by decide),
      processValue_quoted, coerce_oget _ het]
  have pco : parseLine (lineOf (str "color") (quote e.color)) =
      some (str "color", Val.vStr e.color) := by
    rw [parseLine_lineOf _ _ (by decide) (by decide) (by decide),
      processValue_quoted, hcol.2.2]
  have pty : parseLine (lineOf (str "type")
      (quote (if e.type = [] then str "personal" else e.type))) =
      some (str "type", Val.vStr e.type) := by
    rw [if_neg hty0,
      parseLine_lineOf _ _ (by decide) (by decide) (by decide),
      processValue_quoted, hty.2.2]
  have pre : parseLine (lineOf (str "recurrence")
      (quote (oget e.recurrence))) =
      some (str "recurrence", Val.vStr (oget e.recurrence)) := by
    rw [parseLine_lineOf _ _ (by decide) (by decide) (by decide),
      processValue_quoted, coerce_oget _ hre]
  have pree : parseLine (lineOf (str "recurrenceEnd")
      (quote (oget e.recurrenceEnd))) =
      some (str "recurrenceEnd", Val.vStr (oget e.recurrenceEnd)) := by
    rw [parseLine_lineOf _ _ (by decide) (by decide) (by decide),
      processValue_quoted, coerce_oget _ hree]
  have prei : parseLine (lineOf (str "recurrenceInterval")
      (natToStr (e.recurrenceInterval.getD 0))) =
      some (str "recurrenceInterval",
        Val.vInt (e.recurrenceInterval.getD 0)) := by
    rw [parseLine_lineOf _ _ (by decide) (by decide) (by decide),
      processValue_nat]
  simp only [fmLines, parsedPairs, List.cons_append, List.nil_append,
    List.filterMap_append, filterMap_ite, List.filterMap_cons,
    List.filterMap_nil, pid, pti, psd, ped, pad, pst, pet, pco, pty,
    pre, pree, prei]

theorem fmGet_shift (k : Str) (B : Frontmatter) : ∀ acc : Option Val,
    B.foldl (fun acc p => if p.1 = k then some p.2 else acc) acc =
      match B.foldl (fun acc p => if p.1 = k then some p.2 else acc) none with
      | some v => some v
      | none => acc := by
  induction B with
  | nil => intro acc; rfl
  | cons b bs ih =>
    intro acc
    simp only [List.foldl_cons]
    rw [ih (if b.1 = k then some b.2 else acc),
      ih (if b.1 = k then some b.2 else none)]
    cases hbs : bs.foldl (fun acc p => if p.1 = k then some p.2 else acc) none with
    | some v => rfl
    | none =>
      by_cases hb : b.1 = k
      · rw [if_pos hb, if_pos hb]
      · rw [if_neg hb, if_neg hb]

theorem fmGet_append2 (A B : Frontmatter) (k : Str) :
    fmGet (A ++ B) k =
      match fmGet B k with
      | some v => some v
      | none => fmGet A k := by
  unfold fmGet
  rw [List.foldl_append]
  exact fmGet_shift k B _

theorem fmGet_cons (k' : Str) (v : Val) (B : Frontmatter) (k : Str) :
    fmGet ((k', v) :: B) k =
      match fmGet B k with
      | some w => some w
      | none => if k' = k then some v else none := by
  unfold fmGet
  rw [List.foldl_cons]
  exact fmGet_shift k B _

theorem fmGet_nil (k : Str) : fmGet [] k = none := rfl

theorem fmGet_ite (c : Prop) [Decidable c] (L : Frontmatter) (k : Str) :
    fmGet (if c then L else []) k = if c then fmGet L k else none := by
  split <;> rfl

theorem map_vStr_of_truthy (o : Option Str) (h : truthyO o = true) :
    o.map Val.vStr = some (.vStr (oget o)) := by
  cases o with
  | none => exact absurd h (by simp [truthyO])
  | some s => rfl

theorem fmGet_parsed_id (e : Event) :
    fmGet (parsedPairs e) (str "id") = some (.vStr e.id) := by
  simp +decide [parsedPairs, fmGet_append2, fmGet_cons, fmGet_ite,
    fmGet_nil, ite_self]

theorem fmGet_parsed_title (e : Event) :
    fmGet (parsedPairs e) (str "title") = some (.vStr e.title) := by
  simp +decide [parsedPairs, fmGet_append2, fmGet_cons, fmGet_ite,
    fmGet_nil, ite_self]

theorem fmGet_parsed_startDate (e : Event) :
    fmGet (parsedPairs e) (str "startDate") = some (.vStr e.startDate) := by
  simp +decide [parsedPairs, fmGet_append2, fmGet_cons, fmGet_ite,
    fmGet_nil, ite_self]

theorem fmGet_parsed_allDay (e : Event) :
    fmGet (parsedPairs e) (str "allDay") = some (.vBool e.allDay) := by
  simp +decide [parsedPairs, fmGet_append2, fmGet_cons, fmGet_ite,
    fmGet_nil, ite_self]

theorem fmGet_parsed_color (e : Event) :
    fmGet (parsedPairs e) (str "color") = some (.vStr e.color) := by
  simp +decide [parsedPairs, fmGet_append2, fmGet_cons, fmGet_ite,
    fmGet_nil, ite_self]

theorem fmGet_parsed_type (e : Event) :
    fmGet (parsedPairs e) (str "type") = some (.vStr e.type) := by
  simp +decide [parsedPairs, fmGet_append2, fmGet_cons, fmGet_ite,
    fmGet_nil, ite_self]

theorem fmGet_parsed_endDate (e : Event) (h : emitEndDate e = true) :
    fmGet (parsedPairs e) (str "endDate") =
      some (.vStr (oget e.endDate)) := by
  simp +decide [parsedPairs, fmGet_append2, fmGet_cons, fmGet_ite,
    fmGet_nil, ite_self, h]

theorem fmGet_parsed_startTime (e : Event) (h : emitStartTime e = true) :
    fmGet (parsedPairs e) (str "startTime") =
      some (.vStr (oget e.startTime)) := by
  simp +decide [parsedPairs, fmGet_append2, fmGet_cons, fmGet_ite,
    fmGet_nil, ite_self, h]

theorem fmGet_parsed_endTime (e : Event) (h1 : emitStartTime e = true)
    (h2 : truthyO e.endTime = true) :
    fmGet (parsedPairs e) (str "endTime") =
      some (.vStr (oget e.endTime)) := by
  simp +decide [parsedPairs, fmGet_append2, fmGet_cons, fmGet_ite,
    fmGet_nil, ite_self, h1, h2]

theorem fmGet_parsed_recurrence (e : Event) (h : emitRec e = true) :
    fmGet (parsedPairs e) (str "recurrence") =
      some (.vStr (oget e.recurrence)) := by
  simp +decide [parsedPairs, fmGet_append2, fmGet_cons, fmGet_ite,
    fmGet_nil, ite_self, h]

theorem fmGet_parsed_recurrenceEnd (e : Event) (h1 : emitRec e = true)
    (h2 : truthyO e.recurrenceEnd = true) :
    fmGet (parsedPairs e) (str "recurrenceEnd") =
      some (.vStr (oget e.recurrenceEnd)) := by
  simp +decide [parsedPairs, fmGet_append2, fmGet_cons, fmGet_ite,
    fmGet_nil, ite_self, h1, h2]

theorem fmGet_parsed_recurrenceInterval (e : Event) (h1 : emitRec e = true)
    (h2 : emitRecInterval e = true) :
    fmGet (parsedPairs e) (str "recurrenceInterval") =
      some (.vInt (e.recurrenceInterval.getD 0)) := by
  simp +decide [parsedPairs, fmGet_append2, fmGet_cons, fmGet_ite,
    fmGet_nil, ite_self, h1, h2]

theorem bool_and_left {a b : Bool} (h : (a && b) = true) : a = true := by
  cases a
  · simp at h
  · rfl

theorem bool_and_right {a b : Bool} (h : (a && b) = true) : b = true := by
  cases b
  · simp at h
  · rfl

theorem map_vInt_of_emit (e : Event) (h : emitRecInterval e = true) :
    e.recurrenceInterval.map Val.vInt =
      some (.vInt (e.recurrenceInterval.getD 0)) := by
  cases hri : e.recurrenceInterval with
  | none =>
    unfold emitRecInterval at h
    rw [hri] at h
    cases h
  | some n => rfl

/-- Claim C1 (amended): for events whose emitted string fields contain
no double quote or newline and are not strings the parser coerces to
booleans or integers (and with a nonempty `type` and a trim-invariant
description), parsing the serialized text recovers every
explicitly-emitted field exactly, and the body equals the
description. -/
theorem claim_C1_roundtrip (e : Event)
    (hid : goodStr e.id) (hti : goodStr e.title) (hsd : goodStr e.startDate)
    (hcol : goodStr e.color) (hty : goodStr e.type) (hty0 : e.type ≠ [])
    (hed : goodOpt e.endDate) (hst : goodOpt e.startTime)
    (het : goodOpt e.endTime) (hre : goodOpt e.recurrence)
    (hree : goodOpt e.recurrenceEnd)
    (hdesc : trim e.description = e.description) :
    fmGet (parseMarkdown (serializeEvent e)).1 (str "id") =
      some (.vStr e.id) ∧
    fmGet (parseMarkdown (serializeEvent e)).1 (str "title") =
      some (.vStr e.title) ∧
    fmGet (parseMarkdown (serializeEvent e)).1 (str "startDate") =
      some (.vStr e.startDate) ∧
    fmGet (parseMarkdown (serializeEvent e)).1 (str "allDay") =
      some (.vBool e.allDay) ∧
    fmGet (parseMarkdown (serializeEvent e)).1 (str "color") =
      some (.vStr e.color) ∧
    fmGet (parseMarkdown (serializeEvent e)).1 (str "type") =
      some (.vStr e.type) ∧
    (emitEndDate e = true →
      fmGet (parseMarkdown (serializeEvent e)).1 (str "endDate") =
        e.endDate.map .vStr) ∧
    (emitStartTime e = true →
      fmGet (parseMarkdown (serializeEvent e)).1 (str "startTime") =
        e.startTime.map .vStr) ∧
    (emitStartTime e = true → truthyO e.endTime = true →
      fmGet (parseMarkdown (serializeEvent e)).1 (str "endTime") =
        e.endTime.map .vStr) ∧
    (emitRec e = true →
      fmGet (parseMarkdown (serializeEvent e)).1 (str "recurrence") =
        e.recurrence.map .vStr) ∧
    (emitRec e = true → truthyO e.recurrenceEnd = true →
      fmGet (parseMarkdown (serializeEvent e)).1 (str "recurrenceEnd") =
        e.recurrenceEnd.map .vStr) ∧
    (emitRec e = true → emitRecInterval e = true →
      fmGet (parseMarkdown (serializeEvent e)).1 (str "recurrenceInterval") =
        e.recurrenceInterval.map .vInt) ∧
    (parseMarkdown (serializeEvent e)).2 = e.description := by
  have hpm := parseMarkdown_serializeEvent e
    (fmLines_wf e hid hti hsd hcol hty hed hst het hre hree) hdesc
  have hfm := filterMap_fmLines e hid hti hsd hcol hty hty0 hed hst het
    hre hree
  have h1 : (parseMarkdown (serializeEvent e)).1 = parsedPairs e := by
    rw [hpm]
    exact hfm
  have h2 : (parseMarkdown (serializeEvent e)).2 = e.description := by
    rw [hpm]
  rw [h1, h2]
  refine ⟨fmGet_parsed_id e, fmGet_parsed_title e, fmGet_parsed_startDate e,
    fmGet_parsed_allDay e, fmGet_parsed_color e, fmGet_parsed_type e,
    ?_, ?_, ?_, ?_, ?_, ?_, rfl⟩
  · intro h
    have h' : truthyO e.endDate = true := by
      unfold emitEndDate at h
      exact bool_and_left h
    rw [fmGet_parsed_endDate e h, map_vStr_of_truthy e.endDate h']
  · intro h
    have h' : truthyO e.startTime = true := by
      unfold emitStartTime at h
      exact bool_and_right h
    rw [fmGet_parsed_startTime e h, map_vStr_of_truthy e.startTime h']
  · intro h1 h2
    rw [fmGet_parsed_endTime e h1 h2, map_vStr_of_truthy e.endTime h2]
  · intro h
    have h' : truthyO e.recurrence = true := by
      unfold emitRec at h
      exact bool_and_left h
    rw [fmGet_parsed_recurrence e h, map_vStr_of_truthy e.recurrence h']
  · intro h1 h2
    rw [fmGet_parsed_recurrenceEnd e h1 h2,
      map_vStr_of_truthy e.recurrenceEnd h2]
  · intro h1 h2
    rw [fmGet_parsed_recurrenceInterval e h1 h2, map_vInt_of_emit e h2]

/-- Counterexample to claim C1 as stated: for the valid event whose
title is `a"b`, the serializer writes `title: "a\"b"` but the parser
strips only the outer quotes and never unescapes, so the recovered
title is `a\"b`, not the original. -/
theorem claim_C1_counterexample :
    fmGet (parseMarkdown (serializeEvent exQuote)).1 (str "title") =
      some (.vStr ['a', '\\', '"', 'b']) ∧
    fmGet (parseMarkdown (serializeEvent exQuote)).1 (str "title") ≠
      some (.vStr exQuote.title) := by
  constructor
  · decide
  · decide

theorem claim_C1_roundtrip_witness :
    fmGet (parseMarkdown (serializeEvent exRT)).1 (str "id") =
      some (.vStr exRT.id) ∧
    fmGet (parseMarkdown (serializeEvent exRT)).1 (str "title") =
      some (.vStr exRT.title) ∧
    fmGet (parseMarkdown (serializeEvent exRT)).1 (str "startDate") =
      some (.vStr exRT.startDate) ∧
    fmGet (parseMarkdown (serializeEvent exRT)).1 (str "allDay") =
      some (.vBool exRT.allDay) ∧
    fmGet (parseMarkdown (serializeEvent exRT)).1 (str "color") =
      some (.vStr exRT.color) ∧
    fmGet (parseMarkdown (serializeEvent exRT)).1 (str "type") =
      some (.vStr exRT.type) ∧
    fmGet (parseMarkdown (serializeEvent exRT)).1 (str "endDate") =
      exRT.endDate.map .vStr ∧
    fmGet (parseMarkdown (serializeEvent exRT)).1 (str "startTime") =
      exRT.startTime.map .vStr ∧
    fmGet (parseMarkdown (serializeEvent exRT)).1 (str "endTime") =
      exRT.endTime.map .vStr ∧
    fmGet (parseMarkdown (serializeEvent exRT)).1 (str "recurrence") =
      exRT.recurrence.map .vStr ∧
    fmGet (parseMarkdown (serializeEvent exRT)).1 (str "recurrenceEnd") =
      exRT.recurrenceEnd.map .vStr ∧
    fmGet (parseMarkdown (serializeEvent exRT)).1 (str "recurrenceInterval") =
      exRT.recurrenceInterval.map .vInt ∧
    (parseMarkdown (serializeEvent exRT)).2 = exRT.description := by
  have h := claim_C1_roundtrip exRT (by decide) (by decide) (by decide)
    (by decide) (by decide) (by decide)
    (fun s hs => by cases hs; decide) (fun s hs => by cases hs; decide)
    (fun s hs => by cases hs; decide) (fun s hs => by cases hs; decide)
    (fun s hs => by cases hs; decide) (by decide)
  obtain ⟨a1, a2, a3, a4, a5, a6, b1, b2, b3, b4, b5, b6, c⟩ := h
  exact ⟨a1, a2, a3, a4, a5, a6, b1 (by decide), b2 (by decide),
    b3 (by decide) (by decide), b4 (by decide),
    b5 (by decide) (by decide), b6 (by decide) (by decide), c⟩

end NezCal
